import Mathlib

/-!
# Verification of the palette editor's color engine (`src/App.tsx`)

The application keeps a palette of color entries (hex string plus name and
four derived format strings) and exposes four algorithms over them:
initial palette generation, bulk HSL adjustment (`adjustPalette`), heuristic
naming (`generateColorName`) and shade-ramp derivation (`getShades`).

Colors are represented by the `@ctrl/tinycolor` library, whose implementation
is not part of this repository's sources; the specification describes it as
the `ColorValue` component with the standard piecewise-linear RGB/HSL
conversions.  Those conversions, the hex parser/formatter, `spin`, `lighten`
and the format strings are therefore modelled from the spec (each such
definition is marked `Modelled from the spec:`), over exact rational
arithmetic (ℚ).  The palette algorithms themselves (`generateColorName`,
`adjustPalette`, `getShades`, the initial palette and the per-slot update)
are translated directly from `src/App.tsx`, including JavaScript remainder
(`%`) semantics and `Math.floor`/`Math.round`/clamping behavior.
-/

/-- A color as stored internally: red/green/blue channels on the 0–255 scale
(rational, so that intermediate unrounded values are representable). -/
structure Rgb where
  r : ℚ
  g : ℚ
  b : ℚ
deriving DecidableEq

/-- An HSL triple: hue in degrees, saturation and lightness as fractions. -/
structure Hsl where
  h : ℚ
  s : ℚ
  l : ℚ
deriving DecidableEq

/-- The hue/saturation/brightness adjustment vector from the three sliders. -/
structure Adj where
  hue : ℚ
  saturation : ℚ
  brightness : ℚ
deriving DecidableEq

/-- JavaScript `Math.max` on two numbers. -/
def jsMax (a b : ℚ) : ℚ := if a ≤ b then b else a

/-- JavaScript `Math.min` on two numbers. -/
def jsMin (a b : ℚ) : ℚ := if a ≤ b then a else b

/-- Truncation toward zero, as JavaScript `Math.trunc`. -/
def ratTrunc (x : ℚ) : ℤ := if 0 ≤ x then ⌊x⌋ else ⌈x⌉

/-- JavaScript remainder `a % b`: the sign follows the dividend. -/
def jsRem (a b : ℚ) : ℚ := a - b * (ratTrunc (a / b) : ℚ)

/-- JavaScript `Math.round` (half-up). -/
def jsRound (x : ℚ) : ℤ := ⌊x + 1 / 2⌋

/-- Mathematical reduction of a hue into `[0, 360)`.  Modelled from the spec:
ColorValue construction and `spin` wrap hue "modulo 360 into [0,360)". -/
def wrapHue (h : ℚ) : ℚ := h - 360 * (⌊h / 360⌋ : ℚ)

/-- `Math.max(0, Math.min(1, x))`, the clamp used throughout the code. -/
def clamp01 (x : ℚ) : ℚ := jsMax 0 (jsMin 1 x)

/-- Modelled from the spec: the standard RGB → HSL conversion (max/min
channel, chroma-based hue sector lookup), hue returned in degrees as by
`toHsl()`. -/
def toHsl (c : Rgb) : Hsl :=
  let R := c.r / 255
  let G := c.g / 255
  let B := c.b / 255
  let mx := jsMax R (jsMax G B)
  let mn := jsMin R (jsMin G B)
  let l := (mx + mn) / 2
  if mx = mn then ⟨0, 0, l⟩
  else
    let d := mx - mn
    let s := if l > 1 / 2 then d / (2 - mx - mn) else d / (mx + mn)
    let h := if mx = R then (G - B) / d + (if G < B then (6 : ℚ) else 0)
             else if mx = G then (B - R) / d + 2
             else (R - G) / d + 4
    ⟨60 * h, s, l⟩

/-- Modelled from the spec: the `hue2rgb` helper of the standard HSL → RGB
conversion, with its wrap of `t` into `[0, 1]`. -/
def hue2rgb (p q t : ℚ) : ℚ :=
  let t1 := if t < 0 then t + 1 else t
  let t2 := if t1 > 1 then t1 - 1 else t1
  if t2 < 1 / 6 then p + (q - p) * 6 * t2
  else if t2 < 1 / 2 then q
  else if t2 < 2 / 3 then p + (q - p) * (2 / 3 - t2) * 6
  else p

/-- The `q` value of the standard HSL → RGB conversion. -/
def qOf (s l : ℚ) : ℚ := if l < 1 / 2 then l * (1 + s) else l + s - l * s

/-- The `p` value of the standard HSL → RGB conversion. -/
def pOf (s l : ℚ) : ℚ := 2 * l - qOf s l

/-- Modelled from the spec: the standard HSL → RGB conversion; the hue is
wrapped into `[0,360)` on construction, channels come out on the 0–255
scale. -/
def hslToRgb (x : Hsl) : Rgb :=
  if x.s = 0 then ⟨255 * x.l, 255 * x.l, 255 * x.l⟩
  else
    let hh := wrapHue x.h / 360
    let q := qOf x.s x.l
    let p := pOf x.s x.l
    ⟨255 * hue2rgb p q (hh + 1 / 3),
     255 * hue2rgb p q hh,
     255 * hue2rgb p q (hh - 1 / 3)⟩

example : toHsl ⟨255, 0, 0⟩ = ⟨0, 1, 1/2⟩ := by with_unfolding_all decide
example : hslToRgb ⟨0, 1, 1/2⟩ = ⟨255, 0, 0⟩ := by with_unfolding_all decide
example : toHsl ⟨128, 128, 128⟩ = ⟨0, 0, 128/255⟩ := by with_unfolding_all decide
example : hslToRgb ⟨30, 1, 1/2⟩ = ⟨255, 255/2, 0⟩ := by with_unfolding_all decide

/-! ## Order lemmas for the JavaScript max/min and clamp -/

theorem jsMax_eq_left {a b : ℚ} (h : b ≤ a) : jsMax a b = a := by
  unfold jsMax
  by_cases h1 : a ≤ b
  · rw [if_pos h1]; exact le_antisymm h h1
  · rw [if_neg h1]

theorem jsMax_eq_right {a b : ℚ} (h : a ≤ b) : jsMax a b = b := by
  unfold jsMax; rw [if_pos h]

theorem le_jsMax_left (a b : ℚ) : a ≤ jsMax a b := by
  unfold jsMax
  by_cases h1 : a ≤ b
  · rw [if_pos h1]; exact h1
  · rw [if_neg h1]

theorem le_jsMax_right (a b : ℚ) : b ≤ jsMax a b := by
  unfold jsMax
  by_cases h1 : a ≤ b
  · rw [if_pos h1]
  · rw [if_neg h1]; exact le_of_not_le h1

theorem jsMax_le {a b c : ℚ} (h1 : a ≤ c) (h2 : b ≤ c) : jsMax a b ≤ c := by
  unfold jsMax; split_ifs <;> assumption

theorem jsMin_eq_left {a b : ℚ} (h : a ≤ b) : jsMin a b = a := by
  unfold jsMin; rw [if_pos h]

theorem jsMin_eq_right {a b : ℚ} (h : b ≤ a) : jsMin a b = b := by
  unfold jsMin
  by_cases h1 : a ≤ b
  · rw [if_pos h1]; exact le_antisymm h1 h
  · rw [if_neg h1]

theorem jsMin_le_left (a b : ℚ) : jsMin a b ≤ a := by
  unfold jsMin
  by_cases h1 : a ≤ b
  · rw [if_pos h1]
  · rw [if_neg h1]; exact le_of_not_le h1

theorem jsMin_le_right (a b : ℚ) : jsMin a b ≤ b := by
  unfold jsMin
  by_cases h1 : a ≤ b
  · rw [if_pos h1]; exact h1
  · rw [if_neg h1]

theorem le_jsMin {a b c : ℚ} (h1 : c ≤ a) (h2 : c ≤ b) : c ≤ jsMin a b := by
  unfold jsMin; split_ifs <;> assumption

theorem clamp01_nonneg (x : ℚ) : 0 ≤ clamp01 x := le_jsMax_left 0 _

theorem clamp01_le_one (x : ℚ) : clamp01 x ≤ 1 :=
  jsMax_le (by norm_num) (jsMin_le_left 1 x)

theorem clamp01_of_mem {x : ℚ} (h0 : 0 ≤ x) (h1 : x ≤ 1) : clamp01 x = x := by
  unfold clamp01
  rw [jsMin_eq_right h1, jsMax_eq_right h0]

theorem clamp01_of_neg {x : ℚ} (h : x < 0) : clamp01 x = 0 := by
  unfold clamp01
  rw [jsMin_eq_right (by linarith), jsMax_eq_left (le_of_lt h)]

theorem clamp01_of_gt_one {x : ℚ} (h : 1 < x) : clamp01 x = 1 := by
  unfold clamp01
  rw [jsMin_eq_left (le_of_lt h), jsMax_eq_right (by norm_num)]

/-! ## Wrap / remainder lemmas -/

theorem wrapHue_nonneg (h : ℚ) : 0 ≤ wrapHue h := by
  unfold wrapHue
  have := Int.floor_le (h / 360)
  have h360 : (0:ℚ) < 360 := by norm_num
  nlinarith [this]

theorem wrapHue_lt (h : ℚ) : wrapHue h < 360 := by
  unfold wrapHue
  have := Int.lt_floor_add_one (h / 360)
  nlinarith [this]

theorem wrapHue_eq_self {h : ℚ} (h0 : 0 ≤ h) (h1 : h < 360) : wrapHue h = h := by
  unfold wrapHue
  have : ⌊h / 360⌋ = 0 := by
    rw [Int.floor_eq_zero_iff]
    constructor
    · positivity
    · show h / 360 < 1
      linarith [(div_lt_one (by norm_num : (0:ℚ) < 360)).mpr h1]
  rw [this]; push_cast; ring

theorem wrapHue_sub_intCast (h : ℚ) (n : ℤ) : wrapHue (h - 360 * (n:ℚ)) = wrapHue h := by
  unfold wrapHue
  have : (h - 360 * (n:ℚ)) / 360 = h / 360 - (n:ℚ) := by ring
  rw [this, Int.floor_sub_int]
  push_cast; ring

theorem wrapHue_wrapHue (h : ℚ) : wrapHue (wrapHue h) = wrapHue h :=
  wrapHue_eq_self (wrapHue_nonneg h) (wrapHue_lt h)

theorem wrapHue_jsRem (y : ℚ) : wrapHue (jsRem y 360) = wrapHue y := by
  unfold jsRem
  exact wrapHue_sub_intCast y (ratTrunc (y / 360))

theorem jsRem_eq_self {x : ℚ} (h0 : 0 ≤ x) (h1 : x < 360) : jsRem x 360 = x := by
  unfold jsRem ratTrunc
  have hx : 0 ≤ x / 360 := by positivity
  rw [if_pos hx]
  have : ⌊x / 360⌋ = 0 := by
    rw [Int.floor_eq_zero_iff]
    exact ⟨hx, by show x / 360 < 1; linarith [(div_lt_one (by norm_num : (0:ℚ) < 360)).mpr h1]⟩
  rw [this]; push_cast; ring

/-! ## Evaluation lemmas for `hue2rgb` on its linear pieces -/

theorem hue2rgb_up {p q t : ℚ} (h0 : 0 ≤ t) (h1 : t ≤ 1 / 6) :
    hue2rgb p q t = p + (q - p) * 6 * t := by
  simp only [hue2rgb]
  rw [if_neg (not_lt.mpr h0), if_neg (by linarith : ¬ t > 1)]
  rcases lt_or_eq_of_le h1 with h | h
  · rw [if_pos h]
  · rw [if_neg (by linarith : ¬ t < 1 / 6), if_pos (by linarith : t < 1 / 2), h]; ring

theorem hue2rgb_q {p q t : ℚ} (h0 : 1 / 6 ≤ t) (h1 : t ≤ 1 / 2) :
    hue2rgb p q t = q := by
  simp only [hue2rgb]
  rw [if_neg (by linarith : ¬ t < 0), if_neg (by linarith : ¬ t > 1),
    if_neg (by linarith : ¬ t < 1 / 6)]
  rcases lt_or_eq_of_le h1 with h | h
  · rw [if_pos h]
  · rw [if_neg (by linarith : ¬ t < 1 / 2), if_pos (by linarith : t < 2 / 3), h]; ring

theorem hue2rgb_down {p q t : ℚ} (h0 : 1 / 2 ≤ t) (h1 : t ≤ 2 / 3) :
    hue2rgb p q t = p + (q - p) * (2 / 3 - t) * 6 := by
  simp only [hue2rgb]
  rw [if_neg (by linarith : ¬ t < 0), if_neg (by linarith : ¬ t > 1),
    if_neg (by linarith : ¬ t < 1 / 6), if_neg (by linarith : ¬ t < 1 / 2)]
  rcases lt_or_eq_of_le h1 with h | h
  · rw [if_pos h]
  · rw [if_neg (by linarith : ¬ t < 2 / 3), h]; ring

theorem hue2rgb_p {p q t : ℚ} (h0 : 2 / 3 ≤ t) (h1 : t ≤ 1) :
    hue2rgb p q t = p := by
  simp only [hue2rgb]
  rw [if_neg (by linarith : ¬ t < 0), if_neg (by linarith : ¬ t > 1),
    if_neg (by linarith : ¬ t < 1 / 6), if_neg (by linarith : ¬ t < 1 / 2),
    if_neg (by linarith : ¬ t < 2 / 3)]

theorem hue2rgb_wrapP {p q t : ℚ} (h0 : -(1 / 3) ≤ t) (h1 : t ≤ 0) :
    hue2rgb p q t = p := by
  simp only [hue2rgb]
  rcases lt_or_eq_of_le h1 with h | h
  · rw [if_pos h, if_neg (by linarith : ¬ t + 1 > 1),
      if_neg (by linarith : ¬ t + 1 < 1 / 6), if_neg (by linarith : ¬ t + 1 < 1 / 2),
      if_neg (by linarith : ¬ t + 1 < 2 / 3)]
  · rw [if_neg (by linarith : ¬ t < 0), if_neg (by linarith : ¬ t > 1),
      if_pos (by linarith : t < 1 / 6), h]; ring

theorem hue2rgb_wrapUp {p q t : ℚ} (h0 : 1 ≤ t) (h1 : t ≤ 7 / 6) :
    hue2rgb p q t = p + (q - p) * 6 * (t - 1) := by
  simp only [hue2rgb]
  rw [if_neg (by linarith : ¬ t < 0)]
  rcases lt_or_eq_of_le h0 with h | h
  · rw [if_pos (by linarith : t > 1)]
    rcases lt_or_eq_of_le h1 with h2 | h2
    · rw [if_pos (by linarith : t - 1 < 1 / 6)]
    · rw [if_neg (by linarith : ¬ t - 1 < 1 / 6), if_pos (by linarith : t - 1 < 1 / 2), h2]
      ring
  · rw [if_neg (by linarith : ¬ t > 1), if_neg (by linarith : ¬ t < 1 / 6),
      if_neg (by linarith : ¬ t < 1 / 2), if_neg (by linarith : ¬ t < 2 / 3), ← h]
    ring

theorem hue2rgb_wrapQ {p q t : ℚ} (h0 : 7 / 6 ≤ t) (h1 : t ≤ 3 / 2) :
    hue2rgb p q t = q := by
  simp only [hue2rgb]
  rw [if_neg (by linarith : ¬ t < 0), if_pos (by linarith : t > 1),
    if_neg (by linarith : ¬ t - 1 < 1 / 6)]
  rcases lt_or_eq_of_le h1 with h | h
  · rw [if_pos (by linarith : t - 1 < 1 / 2)]
  · rw [if_neg (by linarith : ¬ t - 1 < 1 / 2), if_pos (by linarith : t - 1 < 2 / 3), h]
    ring

/-! ## The `q`/`p` values reconstruct max/min -/

theorem qOf_eq {mx mn : ℚ} (h0 : 0 ≤ mn) (h1 : mn < mx) (h2 : mx ≤ 1) :
    qOf (if (mx + mn) / 2 > 1 / 2 then (mx - mn) / (2 - mx - mn) else (mx - mn) / (mx + mn))
        ((mx + mn) / 2) = mx := by
  have hsum : 0 < mx + mn := by linarith
  have h2s : 0 < 2 - mx - mn := by linarith
  unfold qOf
  split_ifs with ha hb hb
  · linarith
  · field_simp
    ring
  · field_simp
    ring
  · have hl : mx + mn = 1 := by linarith
    rw [hl]
    field_simp
    linarith

theorem pOf_eq {mx mn : ℚ} (h0 : 0 ≤ mn) (h1 : mn < mx) (h2 : mx ≤ 1) :
    pOf (if (mx + mn) / 2 > 1 / 2 then (mx - mn) / (2 - mx - mn) else (mx - mn) / (mx + mn))
        ((mx + mn) / 2) = mn := by
  unfold pOf
  rw [qOf_eq h0 h1 h2]
  ring

theorem sOf_pos {mx mn : ℚ} (h0 : 0 ≤ mn) (h1 : mn < mx) (h2 : mx ≤ 1) :
    0 < (if (mx + mn) / 2 > 1 / 2 then (mx - mn) / (2 - mx - mn) else (mx - mn) / (mx + mn)) := by
  have hsum : 0 < mx + mn := by linarith
  have h2s : 0 < 2 - mx - mn := by linarith
  split_ifs with ha
  · exact div_pos (by linarith) h2s
  · exact div_pos (by linarith) hsum

theorem sOf_le_one {mx mn : ℚ} (h0 : 0 ≤ mn) (h1 : mn < mx) (h2 : mx ≤ 1) :
    (if (mx + mn) / 2 > 1 / 2 then (mx - mn) / (2 - mx - mn) else (mx - mn) / (mx + mn)) ≤ 1 := by
  have hsum : 0 < mx + mn := by linarith
  have h2s : 0 < 2 - mx - mn := by linarith
  split_ifs with ha
  · rw [div_le_one h2s]; linarith
  · rw [div_le_one hsum]; linarith

/-- Evaluation of `hslToRgb` away from the gray case, with an already
in-range hue. -/
theorem hslToRgb_chromatic {h s l : ℚ} (hs : s ≠ 0) (h0 : 0 ≤ h) (h1 : h < 360) :
    hslToRgb ⟨h, s, l⟩ =
      ⟨255 * hue2rgb (pOf s l) (qOf s l) (h / 360 + 1 / 3),
       255 * hue2rgb (pOf s l) (qOf s l) (h / 360),
       255 * hue2rgb (pOf s l) (qOf s l) (h / 360 - 1 / 3)⟩ := by
  simp only [hslToRgb]
  rw [if_neg hs, wrapHue_eq_self h0 h1]

/-! ## Channel evaluations for the RGB → HSL → RGB round trip -/

theorem hue_triple_red_ge {R G B : ℚ} (hBG : B ≤ G) (hGR : G ≤ R) (hlt : B < R) :
    hue2rgb B R ((G - B) / (R - B) / 6 + 1 / 3) = R
  ∧ hue2rgb B R ((G - B) / (R - B) / 6) = G
  ∧ hue2rgb B R ((G - B) / (R - B) / 6 - 1 / 3) = B := by
  have hd : 0 < R - B := by linarith
  have hne : R - B ≠ 0 := ne_of_gt hd
  have hu0 : 0 ≤ (G - B) / (R - B) := div_nonneg (by linarith) hd.le
  have hu1 : (G - B) / (R - B) ≤ 1 := by rw [div_le_one hd]; linarith
  refine ⟨hue2rgb_q (by linarith) (by linarith), ?_, hue2rgb_wrapP (by linarith) (by linarith)⟩
  rw [hue2rgb_up (by linarith) (by linarith)]
  field_simp

theorem hue_triple_red_lt {R G B : ℚ} (hGB : G < B) (hBR : B ≤ R) (hlt : G < R) :
    hue2rgb G R (((G - B) / (R - G) + 6) / 6 + 1 / 3) = R
  ∧ hue2rgb G R (((G - B) / (R - G) + 6) / 6) = G
  ∧ hue2rgb G R (((G - B) / (R - G) + 6) / 6 - 1 / 3) = B := by
  have hd : 0 < R - G := by linarith
  have hne : R - G ≠ 0 := ne_of_gt hd
  have hv0 : -1 ≤ (G - B) / (R - G) := by rw [le_div_iff hd]; linarith
  have hv1 : (G - B) / (R - G) < 0 := div_neg_of_neg_of_pos (by linarith) hd
  refine ⟨hue2rgb_wrapQ (by linarith) (by linarith), hue2rgb_p (by linarith) (by linarith), ?_⟩
  rw [hue2rgb_down (by linarith) (by linarith)]
  field_simp
  ring

theorem hue_triple_green_minB {R G B : ℚ} (hBR : B ≤ R) (hRG : R ≤ G) (hlt : B < G) :
    hue2rgb B G (((B - R) / (G - B) + 2) / 6 + 1 / 3) = R
  ∧ hue2rgb B G (((B - R) / (G - B) + 2) / 6) = G
  ∧ hue2rgb B G (((B - R) / (G - B) + 2) / 6 - 1 / 3) = B := by
  have hd : 0 < G - B := by linarith
  have hne : G - B ≠ 0 := ne_of_gt hd
  have hv0 : -1 ≤ (B - R) / (G - B) := by rw [le_div_iff hd]; linarith
  have hv1 : (B - R) / (G - B) ≤ 0 := div_nonpos_of_nonpos_of_nonneg (by linarith) hd.le
  refine ⟨?_, hue2rgb_q (by linarith) (by linarith), hue2rgb_wrapP (by linarith) (by linarith)⟩
  rw [hue2rgb_down (by linarith) (by linarith)]
  field_simp
  ring

theorem hue_triple_green_minR {R G B : ℚ} (hRB : R ≤ B) (hBG : B ≤ G) (hlt : R < G) :
    hue2rgb R G (((B - R) / (G - R) + 2) / 6 + 1 / 3) = R
  ∧ hue2rgb R G (((B - R) / (G - R) + 2) / 6) = G
  ∧ hue2rgb R G (((B - R) / (G - R) + 2) / 6 - 1 / 3) = B := by
  have hd : 0 < G - R := by linarith
  have hne : G - R ≠ 0 := ne_of_gt hd
  have hw0 : 0 ≤ (B - R) / (G - R) := div_nonneg (by linarith) hd.le
  have hw1 : (B - R) / (G - R) ≤ 1 := by rw [div_le_one hd]; linarith
  refine ⟨hue2rgb_p (by linarith) (by linarith), hue2rgb_q (by linarith) (by linarith), ?_⟩
  rw [hue2rgb_up (by linarith) (by linarith)]
  field_simp
  ring

theorem hue_triple_blue_minG {R G B : ℚ} (hGR : G ≤ R) (hRB : R ≤ B) (hlt : G < B) :
    hue2rgb G B (((R - G) / (B - G) + 4) / 6 + 1 / 3) = R
  ∧ hue2rgb G B (((R - G) / (B - G) + 4) / 6) = G
  ∧ hue2rgb G B (((R - G) / (B - G) + 4) / 6 - 1 / 3) = B := by
  have hd : 0 < B - G := by linarith
  have hne : B - G ≠ 0 := ne_of_gt hd
  have hw0 : 0 ≤ (R - G) / (B - G) := div_nonneg (by linarith) hd.le
  have hw1 : (R - G) / (B - G) ≤ 1 := by rw [div_le_one hd]; linarith
  refine ⟨?_, hue2rgb_p (by linarith) (by linarith), hue2rgb_q (by linarith) (by linarith)⟩
  rw [hue2rgb_wrapUp (by linarith) (by linarith)]
  field_simp
  ring

theorem hue_triple_blue_minR {R G B : ℚ} (hRG : R ≤ G) (hGB : G ≤ B) (hlt : R < B) :
    hue2rgb R B (((R - G) / (B - R) + 4) / 6 + 1 / 3) = R
  ∧ hue2rgb R B (((R - G) / (B - R) + 4) / 6) = G
  ∧ hue2rgb R B (((R - G) / (B - R) + 4) / 6 - 1 / 3) = B := by
  have hd : 0 < B - R := by linarith
  have hne : B - R ≠ 0 := ne_of_gt hd
  have hv0 : -1 ≤ (R - G) / (B - R) := by rw [le_div_iff hd]; linarith
  have hv1 : (R - G) / (B - R) ≤ 0 := div_nonpos_of_nonpos_of_nonneg (by linarith) hd.le
  refine ⟨hue2rgb_p (by linarith) (by linarith), ?_, hue2rgb_q (by linarith) (by linarith)⟩
  rw [hue2rgb_down (by linarith) (by linarith)]
  field_simp
  ring

theorem jsMax_or (a b : ℚ) : jsMax a b = a ∨ jsMax a b = b := by
  unfold jsMax
  split_ifs
  · exact Or.inr rfl
  · exact Or.inl rfl

set_option maxHeartbeats 1600000 in
/-- Exact RGB → HSL → RGB round trip over ℚ: converting a color to HSL and
constructing a color back from that HSL recovers every channel exactly. -/
theorem hslToRgb_toHsl {r g b : ℚ} (h0r : 0 ≤ r) (h1r : r ≤ 255)
    (h0g : 0 ≤ g) (h1g : g ≤ 255) (h0b : 0 ≤ b) (h1b : b ≤ 255) :
    hslToRgb (toHsl ⟨r, g, b⟩) = ⟨r, g, b⟩ := by
  have hR0 : 0 ≤ r / 255 := by positivity
  have hG0 : 0 ≤ g / 255 := by positivity
  have hB0 : 0 ≤ b / 255 := by positivity
  have hR1 : r / 255 ≤ 1 := (div_le_one (by norm_num : (0:ℚ) < 255)).mpr h1r
  have hG1 : g / 255 ≤ 1 := (div_le_one (by norm_num : (0:ℚ) < 255)).mpr h1g
  have hB1 : b / 255 ≤ 1 := (div_le_one (by norm_num : (0:ℚ) < 255)).mpr h1b
  have hch1 : r / 255 ≤ jsMax (r / 255) (jsMax (g / 255) (b / 255)) := le_jsMax_left _ _
  have hch2 : g / 255 ≤ jsMax (r / 255) (jsMax (g / 255) (b / 255)) :=
    le_trans (le_jsMax_left _ _) (le_jsMax_right _ _)
  have hch3 : b / 255 ≤ jsMax (r / 255) (jsMax (g / 255) (b / 255)) :=
    le_trans (le_jsMax_right _ _) (le_jsMax_right _ _)
  have hcl1 : jsMin (r / 255) (jsMin (g / 255) (b / 255)) ≤ r / 255 := jsMin_le_left _ _
  have hcl2 : jsMin (r / 255) (jsMin (g / 255) (b / 255)) ≤ g / 255 :=
    le_trans (jsMin_le_right _ _) (jsMin_le_left _ _)
  have hcl3 : jsMin (r / 255) (jsMin (g / 255) (b / 255)) ≤ b / 255 :=
    le_trans (jsMin_le_right _ _) (jsMin_le_right _ _)
  by_cases heq : jsMax (r / 255) (jsMax (g / 255) (b / 255))
      = jsMin (r / 255) (jsMin (g / 255) (b / 255))
  · -- the achromatic case: all three channels coincide
    have hrx : r / 255 = jsMax (r / 255) (jsMax (g / 255) (b / 255)) :=
      le_antisymm hch1 (heq ▸ hcl1)
    have hgx : g / 255 = jsMax (r / 255) (jsMax (g / 255) (b / 255)) :=
      le_antisymm hch2 (heq ▸ hcl2)
    have hbx : b / 255 = jsMax (r / 255) (jsMax (g / 255) (b / 255)) :=
      le_antisymm hch3 (heq ▸ hcl3)
    have ht : toHsl ⟨r, g, b⟩
        = ⟨0, 0, (jsMax (r / 255) (jsMax (g / 255) (b / 255))
            + jsMin (r / 255) (jsMin (g / 255) (b / 255))) / 2⟩ := by
      simp only [toHsl]
      rw [if_pos heq]
    rw [ht]
    simp only [hslToRgb]
    rw [if_true]
    simp only [Rgb.mk.injEq]
    refine ⟨?_, ?_, ?_⟩
    · rw [← heq, ← hrx]; ring
    · rw [← heq, ← hgx]; ring
    · rw [← heq, ← hbx]; ring
  · -- the chromatic case
    have hmnmx : jsMin (r / 255) (jsMin (g / 255) (b / 255))
        < jsMax (r / 255) (jsMax (g / 255) (b / 255)) :=
      lt_of_le_of_ne (le_trans hcl1 hch1) (fun h => heq h.symm)
    by_cases hmxR : jsMax (r / 255) (jsMax (g / 255) (b / 255)) = r / 255
    · by_cases hGB : g / 255 < b / 255
      · -- max is red, min is green
        have hBR : b / 255 ≤ r / 255 := hmxR ▸ hch3
        have hGR : g / 255 ≤ r / 255 := le_trans (le_of_lt hGB) hBR
        have hmn : jsMin (r / 255) (jsMin (g / 255) (b / 255)) = g / 255 := by
          rw [jsMin_eq_left (le_of_lt hGB), jsMin_eq_right hGR]
        have hlt2 : g / 255 < r / 255 := by
          have h' := hmnmx; rw [hmxR, hmn] at h'; exact h'
        have ht : toHsl ⟨r, g, b⟩
            = ⟨60 * ((g / 255 - b / 255) / (r / 255 - g / 255) + 6),
               (if (r / 255 + g / 255) / 2 > 1 / 2
                then (r / 255 - g / 255) / (2 - r / 255 - g / 255)
                else (r / 255 - g / 255) / (r / 255 + g / 255)),
               (r / 255 + g / 255) / 2⟩ := by
          simp only [toHsl]
          rw [hmxR, hmn, if_neg (ne_of_gt hlt2), if_pos rfl, if_pos hGB]
        have hv0 : -1 ≤ (g / 255 - b / 255) / (r / 255 - g / 255) := by
          rw [le_div_iff (by linarith)]; linarith
        have hv1 : (g / 255 - b / 255) / (r / 255 - g / 255) < 0 :=
          div_neg_of_neg_of_pos (by linarith) (by linarith)
        rw [ht, hslToRgb_chromatic (ne_of_gt (sOf_pos hG0 hlt2 hR1))
          (by linarith) (by linarith)]
        rw [qOf_eq hG0 hlt2 hR1, pOf_eq hG0 hlt2 hR1]
        rw [show (60 * ((g / 255 - b / 255) / (r / 255 - g / 255) + 6)) / 360
            = ((g / 255 - b / 255) / (r / 255 - g / 255) + 6) / 6 from by ring]
        obtain ⟨e1, e2, e3⟩ := hue_triple_red_lt hGB hBR hlt2
        rw [e1, e2, e3]
        simp only [Rgb.mk.injEq]
        exact ⟨by ring, by ring, by ring⟩
      · -- max is red, min is blue
        have hBG : b / 255 ≤ g / 255 := le_of_not_lt hGB
        have hGR : g / 255 ≤ r / 255 := hmxR ▸ hch2
        have hBR : b / 255 ≤ r / 255 := le_trans hBG hGR
        have hmn : jsMin (r / 255) (jsMin (g / 255) (b / 255)) = b / 255 := by
          rw [jsMin_eq_right hBG, jsMin_eq_right hBR]
        have hlt2 : b / 255 < r / 255 := by
          have h' := hmnmx; rw [hmxR, hmn] at h'; exact h'
        have ht : toHsl ⟨r, g, b⟩
            = ⟨60 * ((g / 255 - b / 255) / (r / 255 - b / 255) + 0),
               (if (r / 255 + b / 255) / 2 > 1 / 2
                then (r / 255 - b / 255) / (2 - r / 255 - b / 255)
                else (r / 255 - b / 255) / (r / 255 + b / 255)),
               (r / 255 + b / 255) / 2⟩ := by
          simp only [toHsl]
          rw [hmxR, hmn, if_neg (ne_of_gt hlt2), if_pos rfl, if_neg hGB]
        have hu0 : 0 ≤ (g / 255 - b / 255) / (r / 255 - b / 255) :=
          div_nonneg (by linarith) (by linarith)
        have hu1 : (g / 255 - b / 255) / (r / 255 - b / 255) ≤ 1 := by
          rw [div_le_one (by linarith)]; linarith
        rw [ht, hslToRgb_chromatic (ne_of_gt (sOf_pos hB0 hlt2 hR1))
          (by linarith) (by linarith)]
        rw [qOf_eq hB0 hlt2 hR1, pOf_eq hB0 hlt2 hR1]
        rw [show (60 * ((g / 255 - b / 255) / (r / 255 - b / 255) + 0)) / 360
            = (g / 255 - b / 255) / (r / 255 - b / 255) / 6 from by ring]
        obtain ⟨e1, e2, e3⟩ := hue_triple_red_ge hBG hGR hlt2
        rw [e1, e2, e3]
        simp only [Rgb.mk.injEq]
        exact ⟨by ring, by ring, by ring⟩
    · by_cases hmxG : jsMax (r / 255) (jsMax (g / 255) (b / 255)) = g / 255
      · -- max is green
        have hRG : r / 255 < g / 255 :=
          lt_of_le_of_ne (hmxG ▸ hch1) (fun h => hmxR (by rw [hmxG, h]))
        have hBG : b / 255 ≤ g / 255 := hmxG ▸ hch3
        rcases le_total (b / 255) (r / 255) with hBR | hRB
        · -- min is blue
          have hmn : jsMin (r / 255) (jsMin (g / 255) (b / 255)) = b / 255 := by
            rw [jsMin_eq_right hBG, jsMin_eq_right hBR]
          have hlt2 : b / 255 < g / 255 := by
            have h' := hmnmx; rw [hmxG, hmn] at h'; exact h'
          have ht : toHsl ⟨r, g, b⟩
              = ⟨60 * ((b / 255 - r / 255) / (g / 255 - b / 255) + 2),
                 (if (g / 255 + b / 255) / 2 > 1 / 2
                  then (g / 255 - b / 255) / (2 - g / 255 - b / 255)
                  else (g / 255 - b / 255) / (g / 255 + b / 255)),
                 (g / 255 + b / 255) / 2⟩ := by
            simp only [toHsl]
            rw [hmxG, hmn, if_neg (ne_of_gt hlt2), if_neg (ne_of_gt hRG), if_pos rfl]
          have hv0 : -1 ≤ (b / 255 - r / 255) / (g / 255 - b / 255) := by
            rw [le_div_iff (by linarith)]; linarith
          have hv1 : (b / 255 - r / 255) / (g / 255 - b / 255) ≤ 0 :=
            div_nonpos_of_nonpos_of_nonneg (by linarith) (by linarith)
          rw [ht, hslToRgb_chromatic (ne_of_gt (sOf_pos hB0 hlt2 hG1))
            (by linarith) (by linarith)]
          rw [qOf_eq hB0 hlt2 hG1, pOf_eq hB0 hlt2 hG1]
          rw [show (60 * ((b / 255 - r / 255) / (g / 255 - b / 255) + 2)) / 360
              = ((b / 255 - r / 255) / (g / 255 - b / 255) + 2) / 6 from by ring]
          obtain ⟨e1, e2, e3⟩ := hue_triple_green_minB hBR (le_of_lt hRG) hlt2
          rw [e1, e2, e3]
          simp only [Rgb.mk.injEq]
          exact ⟨by ring, by ring, by ring⟩
        · -- min is red
          have hmn : jsMin (r / 255) (jsMin (g / 255) (b / 255)) = r / 255 := by
            rw [jsMin_eq_right hBG, jsMin_eq_left hRB]
          have hlt2 : r / 255 < g / 255 := hRG
          have ht : toHsl ⟨r, g, b⟩
              = ⟨60 * ((b / 255 - r / 255) / (g / 255 - r / 255) + 2),
                 (if (g / 255 + r / 255) / 2 > 1 / 2
                  then (g / 255 - r / 255) / (2 - g / 255 - r / 255)
                  else (g / 255 - r / 255) / (g / 255 + r / 255)),
                 (g / 255 + r / 255) / 2⟩ := by
            simp only [toHsl]
            rw [hmxG, hmn, if_neg (ne_of_gt hlt2), if_neg (ne_of_gt hRG), if_pos rfl]
          have hw0 : 0 ≤ (b / 255 - r / 255) / (g / 255 - r / 255) :=
            div_nonneg (by linarith) (by linarith)
          have hw1 : (b / 255 - r / 255) / (g / 255 - r / 255) ≤ 1 := by
            rw [div_le_one (by linarith)]; linarith
          rw [ht, hslToRgb_chromatic (ne_of_gt (sOf_pos hR0 hlt2 hG1))
            (by linarith) (by linarith)]
          rw [qOf_eq hR0 hlt2 hG1, pOf_eq hR0 hlt2 hG1]
          rw [show (60 * ((b / 255 - r / 255) / (g / 255 - r / 255) + 2)) / 360
              = ((b / 255 - r / 255) / (g / 255 - r / 255) + 2) / 6 from by ring]
          obtain ⟨e1, e2, e3⟩ := hue_triple_green_minR hRB hBG hlt2
          rw [e1, e2, e3]
          simp only [Rgb.mk.injEq]
          exact ⟨by ring, by ring, by ring⟩
      · -- max is blue
        have hmxB : jsMax (r / 255) (jsMax (g / 255) (b / 255)) = b / 255 := by
          have h1 : jsMax (g / 255) (b / 255) = g / 255 ∨ jsMax (g / 255) (b / 255) = b / 255 :=
            jsMax_or _ _
          have h2 : jsMax (r / 255) (jsMax (g / 255) (b / 255)) = r / 255
              ∨ jsMax (r / 255) (jsMax (g / 255) (b / 255)) = jsMax (g / 255) (b / 255) :=
            jsMax_or _ _
          rcases h2 with h2 | h2
          · exact absurd h2 hmxR
          · rcases h1 with h1 | h1
            · exact absurd (h2.trans h1) hmxG
            · exact h2.trans h1
        have hRB : r / 255 ≤ b / 255 := hmxB ▸ hch1
        have hGB : g / 255 ≤ b / 255 := hmxB ▸ hch2
        rcases le_total (g / 255) (r / 255) with hGR | hRG
        · -- min is green
          have hmn : jsMin (r / 255) (jsMin (g / 255) (b / 255)) = g / 255 := by
            rw [jsMin_eq_left hGB, jsMin_eq_right hGR]
          have hlt2 : g / 255 < b / 255 := by
            have h' := hmnmx; rw [hmxB, hmn] at h'; exact h'
          have ht : toHsl ⟨r, g, b⟩
              = ⟨60 * ((r / 255 - g / 255) / (b / 255 - g / 255) + 4),
                 (if (b / 255 + g / 255) / 2 > 1 / 2
                  then (b / 255 - g / 255) / (2 - b / 255 - g / 255)
                  else (b / 255 - g / 255) / (b / 255 + g / 255)),
                 (b / 255 + g / 255) / 2⟩ := by
            simp only [toHsl]
            rw [hmxB, hmn, if_neg (ne_of_gt hlt2), if_neg, if_neg]
            · intro hcon; exact hmxG (by rw [hmxB, hcon])
            · intro hcon; exact hmxR (by rw [hmxB, hcon])
          have hw0 : 0 ≤ (r / 255 - g / 255) / (b / 255 - g / 255) :=
            div_nonneg (by linarith) (by linarith)
          have hw1 : (r / 255 - g / 255) / (b / 255 - g / 255) ≤ 1 := by
            rw [div_le_one (by linarith)]; linarith
          rw [ht, hslToRgb_chromatic (ne_of_gt (sOf_pos hG0 hlt2 hB1))
            (by linarith) (by linarith)]
          rw [qOf_eq hG0 hlt2 hB1, pOf_eq hG0 hlt2 hB1]
          rw [show (60 * ((r / 255 - g / 255) / (b / 255 - g / 255) + 4)) / 360
              = ((r / 255 - g / 255) / (b / 255 - g / 255) + 4) / 6 from by ring]
          obtain ⟨e1, e2, e3⟩ := hue_triple_blue_minG hGR hRB hlt2
          rw [e1, e2, e3]
          simp only [Rgb.mk.injEq]
          exact ⟨by ring, by ring, by ring⟩
        · -- min is red
          have hmn : jsMin (r / 255) (jsMin (g / 255) (b / 255)) = r / 255 := by
            rw [jsMin_eq_left hGB, jsMin_eq_left hRG]
          have hlt2 : r / 255 < b / 255 := by
            have h' := hmnmx; rw [hmxB, hmn] at h'; exact h'
          have ht : toHsl ⟨r, g, b⟩
              = ⟨60 * ((r / 255 - g / 255) / (b / 255 - r / 255) + 4),
                 (if (b / 255 + r / 255) / 2 > 1 / 2
                  then (b / 255 - r / 255) / (2 - b / 255 - r / 255)
                  else (b / 255 - r / 255) / (b / 255 + r / 255)),
                 (b / 255 + r / 255) / 2⟩ := by
            simp only [toHsl]
            rw [hmxB, hmn, if_neg (ne_of_gt hlt2), if_neg, if_neg]
            · intro hcon; exact hmxG (by rw [hmxB, hcon])
            · intro hcon; exact hmxR (by rw [hmxB, hcon])
          have hv0 : -1 ≤ (r / 255 - g / 255) / (b / 255 - r / 255) := by
            rw [le_div_iff (by linarith)]; linarith
          have hv1 : (r / 255 - g / 255) / (b / 255 - r / 255) ≤ 0 :=
            div_nonpos_of_nonpos_of_nonneg (by linarith) (by linarith)
          rw [ht, hslToRgb_chromatic (ne_of_gt (sOf_pos hR0 hlt2 hB1))
            (by linarith) (by linarith)]
          rw [qOf_eq hR0 hlt2 hB1, pOf_eq hR0 hlt2 hB1]
          rw [show (60 * ((r / 255 - g / 255) / (b / 255 - r / 255) + 4)) / 360
              = ((r / 255 - g / 255) / (b / 255 - r / 255) + 4) / 6 from by ring]
          obtain ⟨e1, e2, e3⟩ := hue_triple_blue_minR hRG hGB hlt2
          rw [e1, e2, e3]
          simp only [Rgb.mk.injEq]
          exact ⟨by ring, by ring, by ring⟩

/-! ## Bounds for `qOf`/`pOf` and the HSL → RGB → HSL round trip -/

theorem qOf_gt {s l : ℚ} (hs0 : 0 < s) (hl0 : 0 < l) (hl1 : l < 1) : l < qOf s l := by
  unfold qOf
  split_ifs with hl
  · nlinarith
  · nlinarith

theorem pOf_nonneg {s l : ℚ} (hs1 : s ≤ 1) (hl0 : 0 < l) (hl1 : l < 1) : 0 ≤ pOf s l := by
  unfold pOf qOf
  split_ifs with hl
  · nlinarith
  · nlinarith [mul_nonneg (sub_nonneg.mpr hs1) (by linarith : (0:ℚ) ≤ 1 - l)]

theorem qOf_le_one {s l : ℚ} (hs1 : s ≤ 1) (hl0 : 0 < l) (hl1 : l < 1) : qOf s l ≤ 1 := by
  unfold qOf
  split_ifs with hl
  · nlinarith
  · nlinarith [mul_nonneg (sub_nonneg.mpr hs1) (by linarith : (0:ℚ) ≤ 1 - l)]

theorem sOf_qp_recover {s l : ℚ} (hs0 : 0 < s) (hs1 : s ≤ 1) (hl0 : 0 < l) (hl1 : l < 1) :
    (if (qOf s l + pOf s l) / 2 > 1 / 2 then (qOf s l - pOf s l) / (2 - qOf s l - pOf s l)
     else (qOf s l - pOf s l) / (qOf s l + pOf s l)) = s := by
  unfold pOf qOf
  split_ifs with h1 h2 h2
  · exfalso; linarith
  · rw [show l * (1 + s) + (2 * l - l * (1 + s)) = 2 * l from by ring,
      div_eq_iff (by linarith : (2:ℚ) * l ≠ 0)]
    ring
  · rw [show (2:ℚ) - (l + s - l * s) - (2 * l - (l + s - l * s)) = 2 - 2 * l from by ring,
      div_eq_iff (by linarith : (2:ℚ) - 2 * l ≠ 0)]
    ring
  · have h12 : l = 1 / 2 := by
      have ha := not_lt.mp h1
      have hb := not_lt.mp h2
      linarith
    rw [show l + s - l * s + (2 * l - (l + s - l * s)) = 2 * l from by ring,
      div_eq_iff (by rw [h12]; norm_num : (2:ℚ) * l ≠ 0), h12]
    ring

set_option maxHeartbeats 3200000 in
/-- Exact HSL → RGB → HSL round trip over ℚ for non-degenerate inputs:
hue already in `[0,360)`, positive saturation, lightness strictly between
0 and 1. -/
theorem toHsl_hslToRgb {h s l : ℚ} (hh0 : 0 ≤ h) (hh1 : h < 360)
    (hs0 : 0 < s) (hs1 : s ≤ 1) (hl0 : 0 < l) (hl1 : l < 1) :
    toHsl (hslToRgb ⟨h, s, l⟩) = ⟨h, s, l⟩ := by
  have h255 : (255:ℚ) ≠ 0 := by norm_num
  have hlq : l < qOf s l := qOf_gt hs0 hl0 hl1
  have hpq : pOf s l < qOf s l := by unfold pOf; linarith
  have hpqle : pOf s l ≤ qOf s l := le_of_lt hpq
  have hqne : qOf s l ≠ pOf s l := ne_of_gt hpq
  have hqpne : qOf s l - pOf s l ≠ 0 := sub_ne_zero_of_ne hqne
  have hqppos : 0 < qOf s l - pOf s l := sub_pos.mpr hpq
  have hlrec : (qOf s l + pOf s l) / 2 = l := by unfold pOf; ring
  have hsrec := sOf_qp_recover hs0 hs1 hl0 hl1
  rw [hslToRgb_chromatic (ne_of_gt hs0) hh0 hh1]
  rcases lt_or_le h 60 with hc1 | hc1
  · -- sector [0, 60)
    have ht1 : 0 ≤ h / 360 := by positivity
    have ht2 : h / 360 < 1 / 6 := by
      rw [div_lt_iff (by norm_num : (0:ℚ) < 360)]; linarith
    rw [@hue2rgb_q (pOf s l) (qOf s l) (h / 360 + 1 / 3) (by linarith) (by linarith),
        @hue2rgb_up (pOf s l) (qOf s l) (h / 360) (by linarith) (by linarith),
        @hue2rgb_wrapP (pOf s l) (qOf s l) (h / 360 - 1 / 3) (by linarith) (by linarith)]
    have hpg : pOf s l ≤ pOf s l + (qOf s l - pOf s l) * 6 * (h / 360) := by
      nlinarith [mul_nonneg (mul_nonneg (le_of_lt hqppos) (by norm_num : (0:ℚ) ≤ 6)) ht1]
    have hgq : pOf s l + (qOf s l - pOf s l) * 6 * (h / 360) ≤ qOf s l := by
      nlinarith [mul_nonneg (le_of_lt hqppos) (by linarith : (0:ℚ) ≤ 1 - 6 * (h / 360))]
    simp only [toHsl]
    rw [mul_div_cancel_left₀ (qOf s l) h255,
        mul_div_cancel_left₀ (pOf s l + (qOf s l - pOf s l) * 6 * (h / 360)) h255,
        mul_div_cancel_left₀ (pOf s l) h255]
    rw [jsMax_eq_left hpg, jsMax_eq_left hgq, jsMin_eq_right hpg, jsMin_eq_right hpqle]
    rw [if_neg hqne, if_pos rfl, if_neg (not_lt.mpr hpg)]
    rw [hsrec, hlrec]
    simp only [Hsl.mk.injEq]
    refine ⟨?_, trivial, trivial⟩
    field_simp
    ring
  rcases lt_or_le h 120 with hc2 | hc2
  · -- sector [60, 120)
    have ht1 : 1 / 6 ≤ h / 360 := by
      rw [le_div_iff (by norm_num : (0:ℚ) < 360)]; linarith
    have ht2 : h / 360 < 1 / 3 := by
      rw [div_lt_iff (by norm_num : (0:ℚ) < 360)]; linarith
    rw [@hue2rgb_down (pOf s l) (qOf s l) (h / 360 + 1 / 3) (by linarith) (by linarith),
        @hue2rgb_q (pOf s l) (qOf s l) (h / 360) (by linarith) (by linarith),
        @hue2rgb_wrapP (pOf s l) (qOf s l) (h / 360 - 1 / 3) (by linarith) (by linarith)]
    have hrp : pOf s l ≤ pOf s l + (qOf s l - pOf s l) * (2 / 3 - (h / 360 + 1 / 3)) * 6 := by
      nlinarith [mul_nonneg (mul_nonneg (le_of_lt hqppos)
        (by linarith : (0:ℚ) ≤ 2 / 3 - (h / 360 + 1 / 3))) (by norm_num : (0:ℚ) ≤ 6)]
    have hrq : pOf s l + (qOf s l - pOf s l) * (2 / 3 - (h / 360 + 1 / 3)) * 6 ≤ qOf s l := by
      nlinarith [mul_nonneg (le_of_lt hqppos)
        (by linarith : (0:ℚ) ≤ 1 - (2 / 3 - (h / 360 + 1 / 3)) * 6)]
    simp only [toHsl]
    rw [mul_div_cancel_left₀
          (pOf s l + (qOf s l - pOf s l) * (2 / 3 - (h / 360 + 1 / 3)) * 6) h255,
        mul_div_cancel_left₀ (qOf s l) h255,
        mul_div_cancel_left₀ (pOf s l) h255]
    rw [jsMax_eq_left hpqle, jsMax_eq_right hrq, jsMin_eq_right hpqle, jsMin_eq_right hrp]
    rw [if_neg hqne]
    rcases eq_or_lt_of_le hc1 with he | hgt
    · rw [if_pos (show qOf s l
          = pOf s l + (qOf s l - pOf s l) * (2 / 3 - (h / 360 + 1 / 3)) * 6 from by
            rw [← he]; ring)]
      rw [if_neg (not_lt.mpr hpqle)]
      rw [hsrec, hlrec]
      simp only [Hsl.mk.injEq]
      refine ⟨?_, trivial, trivial⟩
      rw [← he, div_self hqpne]
      norm_num
    · have hrq2 : pOf s l + (qOf s l - pOf s l) * (2 / 3 - (h / 360 + 1 / 3)) * 6
          < qOf s l := by
        nlinarith [mul_pos hqppos
          (by nlinarith : (0:ℚ) < 1 - (2 / 3 - (h / 360 + 1 / 3)) * 6)]
      rw [if_neg (ne_of_gt hrq2), if_pos rfl]
      rw [hsrec, hlrec]
      simp only [Hsl.mk.injEq]
      refine ⟨?_, trivial, trivial⟩
      field_simp
      ring
  rcases lt_or_le h 180 with hc3 | hc3
  · -- sector [120, 180)
    have ht1 : 1 / 3 ≤ h / 360 := by
      rw [le_div_iff (by norm_num : (0:ℚ) < 360)]; linarith
    have ht2 : h / 360 < 1 / 2 := by
      rw [div_lt_iff (by norm_num : (0:ℚ) < 360)]; linarith
    rw [@hue2rgb_p (pOf s l) (qOf s l) (h / 360 + 1 / 3) (by linarith) (by linarith),
        @hue2rgb_q (pOf s l) (qOf s l) (h / 360) (by linarith) (by linarith),
        @hue2rgb_up (pOf s l) (qOf s l) (h / 360 - 1 / 3) (by linarith) (by linarith)]
    have hbp : pOf s l ≤ pOf s l + (qOf s l - pOf s l) * 6 * (h / 360 - 1 / 3) := by
      nlinarith [mul_nonneg (mul_nonneg (le_of_lt hqppos) (by norm_num : (0:ℚ) ≤ 6))
        (by linarith : (0:ℚ) ≤ h / 360 - 1 / 3)]
    have hbq : pOf s l + (qOf s l - pOf s l) * 6 * (h / 360 - 1 / 3) ≤ qOf s l := by
      nlinarith [mul_nonneg (le_of_lt hqppos)
        (by linarith : (0:ℚ) ≤ 1 - 6 * (h / 360 - 1 / 3))]
    simp only [toHsl]
    rw [mul_div_cancel_left₀ (pOf s l) h255,
        mul_div_cancel_left₀ (qOf s l) h255,
        mul_div_cancel_left₀ (pOf s l + (qOf s l - pOf s l) * 6 * (h / 360 - 1 / 3)) h255]
    rw [jsMax_eq_left hbq, jsMax_eq_right hpqle, jsMin_eq_right hbq, jsMin_eq_left hbp]
    rw [if_neg hqne, if_neg hqne, if_pos rfl]
    rw [hsrec, hlrec]
    simp only [Hsl.mk.injEq]
    refine ⟨?_, trivial, trivial⟩
    field_simp
    ring
  rcases lt_or_le h 240 with hc4 | hc4
  · -- sector [180, 240)
    have ht1 : 1 / 2 ≤ h / 360 := by
      rw [le_div_iff (by norm_num : (0:ℚ) < 360)]; linarith
    have ht2 : h / 360 < 2 / 3 := by
      rw [div_lt_iff (by norm_num : (0:ℚ) < 360)]; linarith
    rw [@hue2rgb_p (pOf s l) (qOf s l) (h / 360 + 1 / 3) (by linarith) (by linarith),
        @hue2rgb_down (pOf s l) (qOf s l) (h / 360) (by linarith) (by linarith),
        @hue2rgb_q (pOf s l) (qOf s l) (h / 360 - 1 / 3) (by linarith) (by linarith)]
    have hgp : pOf s l ≤ pOf s l + (qOf s l - pOf s l) * (2 / 3 - h / 360) * 6 := by
      nlinarith [mul_nonneg (mul_nonneg (le_of_lt hqppos)
        (by linarith : (0:ℚ) ≤ 2 / 3 - h / 360)) (by norm_num : (0:ℚ) ≤ 6)]
    have hgq : pOf s l + (qOf s l - pOf s l) * (2 / 3 - h / 360) * 6 ≤ qOf s l := by
      nlinarith [mul_nonneg (le_of_lt hqppos)
        (by linarith : (0:ℚ) ≤ 1 - (2 / 3 - h / 360) * 6)]
    simp only [toHsl]
    rw [mul_div_cancel_left₀ (pOf s l) h255,
        mul_div_cancel_left₀ (pOf s l + (qOf s l - pOf s l) * (2 / 3 - h / 360) * 6) h255,
        mul_div_cancel_left₀ (qOf s l) h255]
    rw [jsMax_eq_right hgq, jsMax_eq_right hpqle, jsMin_eq_left hgq, jsMin_eq_left hgp]
    rw [if_neg hqne, if_neg hqne]
    rcases eq_or_lt_of_le hc3 with he | hgt
    · rw [if_pos (show qOf s l
          = pOf s l + (qOf s l - pOf s l) * (2 / 3 - h / 360) * 6 from by
            rw [← he]; ring)]
      rw [hsrec, hlrec]
      simp only [Hsl.mk.injEq]
      refine ⟨?_, trivial, trivial⟩
      rw [← he, div_self hqpne]
      norm_num
    · have hgq2 : pOf s l + (qOf s l - pOf s l) * (2 / 3 - h / 360) * 6 < qOf s l := by
        nlinarith [mul_pos hqppos (by nlinarith : (0:ℚ) < 1 - (2 / 3 - h / 360) * 6)]
      rw [if_neg (ne_of_gt hgq2)]
      rw [hsrec, hlrec]
      simp only [Hsl.mk.injEq]
      refine ⟨?_, trivial, trivial⟩
      field_simp
      ring
  rcases lt_or_le h 300 with hc5 | hc5
  · -- sector [240, 300)
    have ht1 : 2 / 3 ≤ h / 360 := by
      rw [le_div_iff (by norm_num : (0:ℚ) < 360)]; linarith
    have ht2 : h / 360 < 5 / 6 := by
      rw [div_lt_iff (by norm_num : (0:ℚ) < 360)]; linarith
    rw [@hue2rgb_wrapUp (pOf s l) (qOf s l) (h / 360 + 1 / 3) (by linarith) (by linarith),
        @hue2rgb_p (pOf s l) (qOf s l) (h / 360) (by linarith) (by linarith),
        @hue2rgb_q (pOf s l) (qOf s l) (h / 360 - 1 / 3) (by linarith) (by linarith)]
    have hrp : pOf s l ≤ pOf s l + (qOf s l - pOf s l) * 6 * (h / 360 + 1 / 3 - 1) := by
      nlinarith [mul_nonneg (mul_nonneg (le_of_lt hqppos) (by norm_num : (0:ℚ) ≤ 6))
        (by linarith : (0:ℚ) ≤ h / 360 + 1 / 3 - 1)]
    have hrq : pOf s l + (qOf s l - pOf s l) * 6 * (h / 360 + 1 / 3 - 1) < qOf s l := by
      nlinarith [mul_pos hqppos (by nlinarith : (0:ℚ) < 1 - 6 * (h / 360 + 1 / 3 - 1))]
    simp only [toHsl]
    rw [mul_div_cancel_left₀
          (pOf s l + (qOf s l - pOf s l) * 6 * (h / 360 + 1 / 3 - 1)) h255,
        mul_div_cancel_left₀ (pOf s l) h255,
        mul_div_cancel_left₀ (qOf s l) h255]
    rw [jsMax_eq_right hpqle, jsMax_eq_right (le_of_lt hrq), jsMin_eq_left hpqle,
      jsMin_eq_right hrp]
    rw [if_neg hqne, if_neg (ne_of_gt hrq), if_neg hqne]
    rw [hsrec, hlrec]
    simp only [Hsl.mk.injEq]
    refine ⟨?_, trivial, trivial⟩
    field_simp
    ring
  · -- sector [300, 360)
    have ht1 : 5 / 6 ≤ h / 360 := by
      rw [le_div_iff (by norm_num : (0:ℚ) < 360)]; linarith
    have ht2 : h / 360 < 1 := by
      rw [div_lt_iff (by norm_num : (0:ℚ) < 360)]; linarith
    rw [@hue2rgb_wrapQ (pOf s l) (qOf s l) (h / 360 + 1 / 3) (by linarith) (by linarith),
        @hue2rgb_p (pOf s l) (qOf s l) (h / 360) (by linarith) (by linarith),
        @hue2rgb_down (pOf s l) (qOf s l) (h / 360 - 1 / 3) (by linarith) (by linarith)]
    have hpb : pOf s l < pOf s l + (qOf s l - pOf s l) * (2 / 3 - (h / 360 - 1 / 3)) * 6 := by
      nlinarith [mul_pos (mul_pos hqppos
        (by linarith : (0:ℚ) < 2 / 3 - (h / 360 - 1 / 3))) (by norm_num : (0:ℚ) < 6)]
    have hbq : pOf s l + (qOf s l - pOf s l) * (2 / 3 - (h / 360 - 1 / 3)) * 6 ≤ qOf s l := by
      nlinarith [mul_nonneg (le_of_lt hqppos)
        (by linarith : (0:ℚ) ≤ 1 - (2 / 3 - (h / 360 - 1 / 3)) * 6)]
    simp only [toHsl]
    rw [mul_div_cancel_left₀ (qOf s l) h255,
        mul_div_cancel_left₀ (pOf s l) h255,
        mul_div_cancel_left₀
          (pOf s l + (qOf s l - pOf s l) * (2 / 3 - (h / 360 - 1 / 3)) * 6) h255]
    rw [jsMax_eq_right (le_of_lt hpb), jsMax_eq_left hbq, jsMin_eq_left (le_of_lt hpb),
      jsMin_eq_right hpqle]
    rw [if_neg hqne, if_pos rfl, if_pos hpb]
    rw [hsrec, hlrec]
    simp only [Hsl.mk.injEq]
    refine ⟨?_, trivial, trivial⟩
    field_simp
    ring

set_option maxHeartbeats 800000 in
/-- The HSL triple computed from an in-range color always has hue in
`[0, 360)` and saturation/lightness in `[0, 1]`. -/
theorem toHsl_mem {r g b : ℚ} (h0r : 0 ≤ r) (h1r : r ≤ 255)
    (h0g : 0 ≤ g) (h1g : g ≤ 255) (h0b : 0 ≤ b) (h1b : b ≤ 255) :
    0 ≤ (toHsl ⟨r, g, b⟩).h ∧ (toHsl ⟨r, g, b⟩).h < 360
    ∧ 0 ≤ (toHsl ⟨r, g, b⟩).s ∧ (toHsl ⟨r, g, b⟩).s ≤ 1
    ∧ 0 ≤ (toHsl ⟨r, g, b⟩).l ∧ (toHsl ⟨r, g, b⟩).l ≤ 1 := by
  have hR0 : 0 ≤ r / 255 := by positivity
  have hG0 : 0 ≤ g / 255 := by positivity
  have hB0 : 0 ≤ b / 255 := by positivity
  have hR1 : r / 255 ≤ 1 := (div_le_one (by norm_num : (0:ℚ) < 255)).mpr h1r
  have hG1 : g / 255 ≤ 1 := (div_le_one (by norm_num : (0:ℚ) < 255)).mpr h1g
  have hB1 : b / 255 ≤ 1 := (div_le_one (by norm_num : (0:ℚ) < 255)).mpr h1b
  have hch1 : r / 255 ≤ jsMax (r / 255) (jsMax (g / 255) (b / 255)) := le_jsMax_left _ _
  have hch2 : g / 255 ≤ jsMax (r / 255) (jsMax (g / 255) (b / 255)) :=
    le_trans (le_jsMax_left _ _) (le_jsMax_right _ _)
  have hch3 : b / 255 ≤ jsMax (r / 255) (jsMax (g / 255) (b / 255)) :=
    le_trans (le_jsMax_right _ _) (le_jsMax_right _ _)
  have hcl1 : jsMin (r / 255) (jsMin (g / 255) (b / 255)) ≤ r / 255 := jsMin_le_left _ _
  have hcl2 : jsMin (r / 255) (jsMin (g / 255) (b / 255)) ≤ g / 255 :=
    le_trans (jsMin_le_right _ _) (jsMin_le_left _ _)
  have hcl3 : jsMin (r / 255) (jsMin (g / 255) (b / 255)) ≤ b / 255 :=
    le_trans (jsMin_le_right _ _) (jsMin_le_right _ _)
  have hmx1 : jsMax (r / 255) (jsMax (g / 255) (b / 255)) ≤ 1 :=
    jsMax_le hR1 (jsMax_le hG1 hB1)
  have hmn0 : 0 ≤ jsMin (r / 255) (jsMin (g / 255) (b / 255)) :=
    le_jsMin hR0 (le_jsMin hG0 hB0)
  simp only [toHsl]
  by_cases h1 : jsMax (r / 255) (jsMax (g / 255) (b / 255))
      = jsMin (r / 255) (jsMin (g / 255) (b / 255))
  · rw [if_pos h1]
    dsimp only
    refine ⟨le_refl 0, by norm_num, le_refl 0, by norm_num, by linarith, by linarith⟩
  · rw [if_neg h1]
    dsimp only
    have hdlt : jsMin (r / 255) (jsMin (g / 255) (b / 255))
        < jsMax (r / 255) (jsMax (g / 255) (b / 255)) :=
      lt_of_le_of_ne (le_trans hcl1 hch1) (fun hcon => h1 hcon.symm)
    have hd0 : (0:ℚ) < jsMax (r / 255) (jsMax (g / 255) (b / 255))
        - jsMin (r / 255) (jsMin (g / 255) (b / 255)) := by linarith
    have hu1 : (g / 255 - b / 255) / (jsMax (r / 255) (jsMax (g / 255) (b / 255))
        - jsMin (r / 255) (jsMin (g / 255) (b / 255))) ≤ 1 := by
      rw [div_le_one hd0]; linarith
    have hu2 : -1 ≤ (g / 255 - b / 255) / (jsMax (r / 255) (jsMax (g / 255) (b / 255))
        - jsMin (r / 255) (jsMin (g / 255) (b / 255))) := by
      rw [le_div_iff hd0]; linarith
    have hv1 : (b / 255 - r / 255) / (jsMax (r / 255) (jsMax (g / 255) (b / 255))
        - jsMin (r / 255) (jsMin (g / 255) (b / 255))) ≤ 1 := by
      rw [div_le_one hd0]; linarith
    have hv2 : -1 ≤ (b / 255 - r / 255) / (jsMax (r / 255) (jsMax (g / 255) (b / 255))
        - jsMin (r / 255) (jsMin (g / 255) (b / 255))) := by
      rw [le_div_iff hd0]; linarith
    have hw1 : (r / 255 - g / 255) / (jsMax (r / 255) (jsMax (g / 255) (b / 255))
        - jsMin (r / 255) (jsMin (g / 255) (b / 255))) ≤ 1 := by
      rw [div_le_one hd0]; linarith
    have hw2 : -1 ≤ (r / 255 - g / 255) / (jsMax (r / 255) (jsMax (g / 255) (b / 255))
        - jsMin (r / 255) (jsMin (g / 255) (b / 255))) := by
      rw [le_div_iff hd0]; linarith
    have hsum0 : (0:ℚ) < jsMax (r / 255) (jsMax (g / 255) (b / 255))
        + jsMin (r / 255) (jsMin (g / 255) (b / 255)) := by linarith
    have hsum2 : (0:ℚ) < 2 - jsMax (r / 255) (jsMax (g / 255) (b / 255))
        - jsMin (r / 255) (jsMin (g / 255) (b / 255)) := by linarith
    refine ⟨?_, ?_, ?_, ?_, by linarith, by linarith⟩
    · split_ifs with ha hb
      · linarith
      · have hgb : b / 255 ≤ g / 255 := le_of_not_lt hb
        have : (0:ℚ) ≤ (g / 255 - b / 255) / (jsMax (r / 255) (jsMax (g / 255) (b / 255))
            - jsMin (r / 255) (jsMin (g / 255) (b / 255))) :=
          div_nonneg (by linarith) (le_of_lt hd0)
        linarith
      · linarith
      · linarith
    · split_ifs with ha hb
      · have : (g / 255 - b / 255) / (jsMax (r / 255) (jsMax (g / 255) (b / 255))
            - jsMin (r / 255) (jsMin (g / 255) (b / 255))) < 0 :=
          div_neg_of_neg_of_pos (by linarith) hd0
        linarith
      · linarith
      · linarith
      · linarith
    · split_ifs with ha
      · exact div_nonneg (le_of_lt hd0) (le_of_lt hsum2)
      · exact div_nonneg (le_of_lt hd0) (le_of_lt hsum0)
    · split_ifs with ha
      · rw [div_le_one hsum2]; linarith
      · rw [div_le_one hsum0]; linarith

/-! ## Hex strings and the derived format strings -/

/-- The lowercase hex digit character for a value in `0–15`:
digits `0`-`9` for values below ten, letters `a`-`f` above. -/
def hexDigit (n : ℕ) : Char :=
  if n < 10 then Char.ofNat (48 + n) else if n < 16 then Char.ofNat (87 + n) else '0'

/-- Modelled from the spec: value of one hex digit character (either case);
`none` when the character is not a hex digit. -/
def hexVal (ch : Char) : Option ℕ :=
  let n := ch.toNat
  if 48 ≤ n ∧ n ≤ 57 then some (n - 48)
  else if 97 ≤ n ∧ n ≤ 102 then some (n - 87)
  else if 65 ≤ n ∧ n ≤ 70 then some (n - 55)
  else none

/-- The two lowercase hex digits of a byte. -/
def byteToHexChars (n : ℕ) : List Char := [hexDigit (n / 16), hexDigit (n % 16)]

/-- Modelled from the spec: `toHexString()` — the canonical lowercase
`#rrggbb` form, channels rounded to integers. -/
def toHexString (c : Rgb) : String :=
  String.mk ('#' :: (byteToHexChars (jsRound c.r).toNat
    ++ byteToHexChars (jsRound c.g).toNat ++ byteToHexChars (jsRound c.b).toNat))

/-- Modelled from the spec: parse of a 3- or 6-digit hex body. -/
def fromHexCore : List Char → Option Rgb
  | [a, b, c] => do
      let va ← hexVal a
      let vb ← hexVal b
      let vc ← hexVal c
      pure ⟨((17 * va : ℕ) : ℚ), ((17 * vb : ℕ) : ℚ), ((17 * vc : ℕ) : ℚ)⟩
  | [a, b, c, d, e, f] => do
      let va ← hexVal a
      let vb ← hexVal b
      let vc ← hexVal c
      let vd ← hexVal d
      let ve ← hexVal e
      let vf ← hexVal f
      pure ⟨((16 * va + vb : ℕ) : ℚ), ((16 * vc + vd : ℕ) : ℚ), ((16 * ve + vf : ℕ) : ℚ)⟩
  | _ => none

/-- Modelled from the spec: hex parsing accepts an optional leading `#` and
a 3- or 6-digit body, and fails (`none` — the `InvalidColorFormat` outcome)
on anything else; an unparseable string is never coerced to a color. -/
def fromHexList (l : List Char) : Option Rgb :=
  if l.head? = some '#' then fromHexCore l.tail else fromHexCore l

/-- String-level entry point of the spec-modelled parser. -/
def fromHex (s : String) : Option Rgb := fromHexList s.data

example : fromHex "#ff0000" = some ⟨255, 0, 0⟩ := by with_unfolding_all decide
example : fromHex "F00" = some ⟨255, 0, 0⟩ := by with_unfolding_all decide
example : fromHex "#12345" = none := by with_unfolding_all decide
example : toHexString ⟨255, 255/2, 0⟩ = "#ff8000" := by with_unfolding_all decide

/-- Modelled from the spec: the standard RGB → HSV conversion,
`(hue in degrees, saturation, value)`. -/
def toHsv (c : Rgb) : ℚ × ℚ × ℚ :=
  let mx := jsMax (c.r / 255) (jsMax (c.g / 255) (c.b / 255))
  let mn := jsMin (c.r / 255) (jsMin (c.g / 255) (c.b / 255))
  let d := mx - mn
  let s := if mx = 0 then 0 else d / mx
  ((toHsl c).h, s, mx)

/-- Modelled from the spec: the standard subtractive CMYK approximation,
`k = 1 - max(r, g, b)` (presentation-only, never round-tripped). -/
def toCmyk (c : Rgb) : ℚ × ℚ × ℚ × ℚ :=
  let mx := jsMax (c.r / 255) (jsMax (c.g / 255) (c.b / 255))
  let k := 1 - mx
  if k = 1 then (0, 0, 0, 1)
  else ((1 - c.r / 255 - k) / (1 - k), (1 - c.g / 255 - k) / (1 - k),
        (1 - c.b / 255 - k) / (1 - k), k)

/-- Modelled from the spec: `toRgbString()`. -/
def toRgbString (c : Rgb) : String :=
  "rgb(" ++ toString (jsRound c.r).toNat ++ ", " ++ toString (jsRound c.g).toNat
    ++ ", " ++ toString (jsRound c.b).toNat ++ ")"

/-- Modelled from the spec: `toHslString()`, a percentage-bearing tuple. -/
def toHslString (c : Rgb) : String :=
  let x := toHsl c
  "hsl(" ++ toString (jsRound x.h).toNat ++ ", " ++ toString (jsRound (x.s * 100)).toNat
    ++ "%, " ++ toString (jsRound (x.l * 100)).toNat ++ "%)"

/-- Modelled from the spec: `toHsvString()`, a percentage-bearing tuple. -/
def toHsvString (c : Rgb) : String :=
  let x := toHsv c
  "hsv(" ++ toString (jsRound x.1).toNat ++ ", " ++ toString (jsRound (x.2.1 * 100)).toNat
    ++ "%, " ++ toString (jsRound (x.2.2 * 100)).toNat ++ "%)"

/-- Modelled from the spec: `toCmykString()`, a percentage-bearing tuple. -/
def toCmykString (c : Rgb) : String :=
  let x := toCmyk c
  "cmyk(" ++ toString (jsRound (x.1 * 100)).toNat ++ "%, "
    ++ toString (jsRound (x.2.1 * 100)).toNat ++ "%, "
    ++ toString (jsRound (x.2.2.1 * 100)).toNat ++ "%, "
    ++ toString (jsRound (x.2.2.2 * 100)).toNat ++ "%)"

/-! ## The palette algorithms of `src/App.tsx` -/

/-- The seven hue labels of `generateColorName` (`src/App.tsx` lines 17–25). -/
def hueNames : List String :=
  ["Red", "Orange", "Yellow", "Green", "Blue", "Purple", "Pink"]

/-- `Math.floor((h % 360) / 60)` from line 26 of `src/App.tsx`, with the
JavaScript remainder. -/
def hueIndexOf (h : ℚ) : ℤ := ⌊jsRem h 360 / 60⌋

/-- JavaScript array indexing `hueNames[k]`: out-of-range indices give
`undefined`, which the template literal renders as `"undefined"`. -/
def hueNameAt (k : ℤ) : String :=
  if 0 ≤ k then hueNames.getD k.toNat "undefined" else "undefined"

/-- JavaScript `String.prototype.trim` (all strings here only ever carry
ordinary spaces). -/
def jsTrim (s : String) : String :=
  String.mk (((s.data.dropWhile (· == ' ')).reverse.dropWhile (· == ' ')).reverse)

/-- `generateColorName` translated from `src/App.tsx` lines 15–30. -/
def generateColorName (color : Rgb) : String :=
  let x := toHsl color
  let hueIndex := hueIndexOf x.h
  let saturation := if x.s > 1/2 then "Vibrant" else "Muted"
  let lightness := if x.l > 7/10 then "Light" else if x.l < 3/10 then "Dark" else ""
  jsTrim (lightness ++ " " ++ saturation ++ " " ++ hueNameAt hueIndex)

example : generateColorName ⟨255, 0, 0⟩ = "Vibrant Red" := by with_unfolding_all decide
example : generateColorName ⟨128, 128, 128⟩ = "Muted Red" := by with_unfolding_all decide

/-- One stored palette entry (`ColorData` in `src/App.tsx`). -/
structure ColorData where
  hex : String
  name : String
  rgb : String
  hsl : String
  hsv : String
  cmyk : String
deriving DecidableEq

/-- The record every update site of `src/App.tsx` builds from a color:
hex plus name and the four derived strings, all computed from that color. -/
def mkColorData (c : Rgb) : ColorData :=
  ⟨toHexString c, generateColorName c, toRgbString c, toHslString c,
   toHsvString c, toCmykString c⟩

/-- Lines 63–65 of `src/App.tsx`: the HSL mutation of `adjustPalette`
(JavaScript `%` on the hue, `Math.max(0, Math.min(1, ·))` on saturation and
lightness). -/
def adjustHsl (a : Adj) (x : Hsl) : Hsl :=
  ⟨jsRem (x.h + a.hue) 360,
   clamp01 (x.s + a.saturation / 100),
   clamp01 (x.l + a.brightness / 100)⟩

/-- One entry's color update in `adjustPalette` (lines 60–66): decode the
stored hex, mutate the HSL, construct the new color. -/
def adjustColor (a : Adj) (c : Rgb) : Rgb := hslToRgb (adjustHsl a (toHsl c))

/-- The channel rounding a color undergoes when stored as its hex string
(`toHexString`) and re-parsed by the next `new TinyColor(color.hex)`;
see `fromHex_toHexString`. -/
def storeColor (c : Rgb) : Rgb :=
  ⟨((jsRound c.r : ℤ) : ℚ), ((jsRound c.g : ℤ) : ℚ), ((jsRound c.b : ℤ) : ℚ)⟩

/-- `adjustPalette` (lines 58–77) over the palette state, each entry
represented by the color its stored hex denotes. -/
def adjustPalette (a : Adj) (p : List Rgb) : List Rgb :=
  p.map (fun c => storeColor (adjustColor a c))

/-- Modelled from the spec: `lighten(amount)` adds `amount` on the 0–100
lightness scale and clamps to the valid range. -/
def lighten (amount : ℚ) (c : Rgb) : Rgb :=
  let x := toHsl c
  hslToRgb ⟨x.h, x.s, clamp01 (x.l + amount / 100)⟩

/-- `getShades` from `src/App.tsx` lines 109–120: five shades with
`factor = (i - 2) * 0.2` and `lighten(factor * 50)`, as hex strings. -/
def getShades (c : Rgb) : List String :=
  (List.range 5).map (fun (i : ℕ) => toHexString (lighten (((i : ℚ) - 2) * (2 / 10) * 50) c))

/-- `getShades` applied to a hex string, through the spec-modelled parser. -/
def getShadesOfHex (hex : String) : Option (List String) :=
  (fromHex hex).map getShades

/-- Modelled from the spec: `spin(degrees)` rotates hue, wrapping modulo 360
into `[0, 360)`; saturation and lightness unchanged. -/
def spin (amount : ℚ) (c : Rgb) : Rgb :=
  let x := toHsl c
  hslToRgb ⟨wrapHue (x.h + amount), x.s, x.l⟩

/-- The initial palette of `src/App.tsx` lines 33–48 with the random base
hue injected: base = `TinyColor({h: h0, s: 0.7, l: 0.5})`, slot `i` is
`base.clone().spin(i * 30)` stored as a full record. -/
def initialPalette (h0 : ℚ) : List ColorData :=
  let base := hslToRgb ⟨h0, 7 / 10, 1 / 2⟩
  (List.range 5).map (fun (i : ℕ) => mkColorData (spin ((i : ℚ) * 30) base))

/-- The naming rules exactly as worded in the spec (§4.3), for comparison
with the implementation's `generateColorName`: six 60° sectors with labels
Red, Orange, Yellow, Green, Blue, Purple, a saturation word, an optional
lightness word, composed and trimmed. -/
def specColorName (x : Hsl) : String :=
  let sector := (⌊x.h / 60⌋).toNat
  let hueLabel := ["Red", "Orange", "Yellow", "Green", "Blue", "Purple"].getD sector ""
  let satLabel := if x.s > 1/2 then "Vibrant" else "Muted"
  let lightLabel := if x.l > 7/10 then "Light" else if x.l < 3/10 then "Dark" else ""
  jsTrim (lightLabel ++ " " ++ satLabel ++ " " ++ hueLabel)

/-! ## Hex round-trip lemmas -/

theorem hexVal_hexDigit : ∀ n : ℕ, n < 16 → hexVal (hexDigit n) = some n := by decide

theorem hexVal_le {ch : Char} {v : ℕ} (h : hexVal ch = some v) : v ≤ 15 := by
  unfold hexVal at h
  dsimp only at h
  split_ifs at h with h1 h2 h3
  · injection h with h'; omega
  · injection h with h'; omega
  · injection h with h'; omega

theorem hexVal_eq_zero {ch : Char} (h : hexVal ch = some 0) : ch = '0' := by
  unfold hexVal at h
  dsimp only at h
  split_ifs at h with h1 h2 h3
  · injection h with h'
    have hn : ch.toNat = 48 := by omega
    rw [← Char.ofNat_toNat ch, hn]
  · injection h with h'; exfalso; omega
  · injection h with h'; exfalso; omega

theorem jsRound_natCast (n : ℕ) : jsRound ((n : ℕ) : ℚ) = n := by
  unfold jsRound
  rw [Int.floor_eq_iff]
  constructor
  · push_cast; linarith
  · push_cast; linarith

theorem jsRound_mem {x : ℚ} (h0 : 0 ≤ x) (h1 : x ≤ 255) :
    0 ≤ jsRound x ∧ jsRound x ≤ 255 := by
  unfold jsRound
  constructor
  · exact Int.floor_nonneg.mpr (by linarith)
  · have : ⌊x + 1 / 2⌋ < 256 := Int.floor_lt.mpr (by push_cast; linarith)
    omega

theorem fromHex_bytes (nr ng nb : ℕ) (h1 : nr ≤ 255) (h2 : ng ≤ 255) (h3 : nb ≤ 255) :
    fromHexList ('#' :: (byteToHexChars nr ++ byteToHexChars ng ++ byteToHexChars nb))
      = some ⟨(nr : ℚ), (ng : ℚ), (nb : ℚ)⟩ := by
  have e1 := hexVal_hexDigit (nr / 16) (by omega)
  have e2 := hexVal_hexDigit (nr % 16) (by omega)
  have e3 := hexVal_hexDigit (ng / 16) (by omega)
  have e4 := hexVal_hexDigit (ng % 16) (by omega)
  have e5 := hexVal_hexDigit (nb / 16) (by omega)
  have e6 := hexVal_hexDigit (nb % 16) (by omega)
  simp only [byteToHexChars, List.cons_append, List.nil_append, fromHexList,
    List.head?_cons, List.tail_cons, Option.some.injEq, if_pos, fromHexCore,
    e1, e2, e3, e4, e5, e6]
  show some (⟨((16 * (nr / 16) + nr % 16 : ℕ) : ℚ), ((16 * (ng / 16) + ng % 16 : ℕ) : ℚ),
      ((16 * (nb / 16) + nb % 16 : ℕ) : ℚ)⟩ : Rgb) = some ⟨(nr : ℚ), (ng : ℚ), (nb : ℚ)⟩
  rw [Nat.div_add_mod, Nat.div_add_mod, Nat.div_add_mod]

/-- Storing a color as hex and re-parsing it yields exactly its
channel-rounded value. -/
theorem fromHex_toHexString {c : Rgb} (h0r : 0 ≤ c.r) (h1r : c.r ≤ 255)
    (h0g : 0 ≤ c.g) (h1g : c.g ≤ 255) (h0b : 0 ≤ c.b) (h1b : c.b ≤ 255) :
    fromHex (toHexString c) = some (storeColor c) := by
  obtain ⟨hr0, hr1⟩ := jsRound_mem h0r h1r
  obtain ⟨hg0, hg1⟩ := jsRound_mem h0g h1g
  obtain ⟨hb0, hb1⟩ := jsRound_mem h0b h1b
  have er : (((jsRound c.r).toNat : ℕ) : ℚ) = ((jsRound c.r : ℤ) : ℚ) := by
    exact_mod_cast Int.toNat_of_nonneg hr0
  have eg : (((jsRound c.g).toNat : ℕ) : ℚ) = ((jsRound c.g : ℤ) : ℚ) := by
    exact_mod_cast Int.toNat_of_nonneg hg0
  have eb : (((jsRound c.b).toNat : ℕ) : ℚ) = ((jsRound c.b : ℤ) : ℚ) := by
    exact_mod_cast Int.toNat_of_nonneg hb0
  show fromHexList ('#' :: (byteToHexChars (jsRound c.r).toNat
    ++ byteToHexChars (jsRound c.g).toNat ++ byteToHexChars (jsRound c.b).toNat))
      = some (storeColor c)
  rw [fromHex_bytes _ _ _ (by omega) (by omega) (by omega)]
  unfold storeColor
  rw [er, eg, eb]

/-- Inversion of the body parser: a parsed color always has integer
channels in `0–255`. -/
theorem fromHexCore_shape : ∀ {l : List Char} {c : Rgb}, fromHexCore l = some c →
    ∃ nr ng nb : ℕ, nr ≤ 255 ∧ ng ≤ 255 ∧ nb ≤ 255
      ∧ c = ⟨(nr : ℚ), (ng : ℚ), (nb : ℚ)⟩ := by
  intro l c h
  rcases l with _ | ⟨a, _ | ⟨b, _ | ⟨d, _ | ⟨e, _ | ⟨f, _ | ⟨g', _ | ⟨i, tl⟩⟩⟩⟩⟩⟩⟩
  · simp [fromHexCore] at h
  · simp [fromHexCore] at h
  · simp [fromHexCore] at h
  · cases ha : hexVal a with
    | none => rw [fromHexCore, ha] at h; exact Option.noConfusion h
    | some va =>
      cases hb : hexVal b with
      | none => rw [fromHexCore, ha, hb] at h; exact Option.noConfusion h
      | some vb =>
        cases hd : hexVal d with
        | none => rw [fromHexCore, ha, hb, hd] at h; exact Option.noConfusion h
        | some vd =>
          rw [fromHexCore, ha, hb, hd] at h
          refine ⟨17 * va, 17 * vb, 17 * vd, ?_, ?_, ?_, ?_⟩
          · have := hexVal_le ha; omega
          · have := hexVal_le hb; omega
          · have := hexVal_le hd; omega
          · exact (Option.some.inj h).symm
  · simp [fromHexCore] at h
  · simp [fromHexCore] at h
  · cases ha : hexVal a with
    | none => rw [fromHexCore, ha] at h; exact Option.noConfusion h
    | some va =>
      cases hb : hexVal b with
      | none => rw [fromHexCore, ha, hb] at h; exact Option.noConfusion h
      | some vb =>
        cases hd : hexVal d with
        | none => rw [fromHexCore, ha, hb, hd] at h; exact Option.noConfusion h
        | some vd =>
          cases he : hexVal e with
          | none => rw [fromHexCore, ha, hb, hd, he] at h; exact Option.noConfusion h
          | some ve =>
            cases hf : hexVal f with
            | none => rw [fromHexCore, ha, hb, hd, he, hf] at h; exact Option.noConfusion h
            | some vf =>
              cases hg : hexVal g' with
              | none =>
                rw [fromHexCore, ha, hb, hd, he, hf, hg] at h
                exact Option.noConfusion h
              | some vg =>
                rw [fromHexCore, ha, hb, hd, he, hf, hg] at h
                refine ⟨16 * va + vb, 16 * vd + ve, 16 * vf + vg, ?_, ?_, ?_, ?_⟩
                · have := hexVal_le ha; have := hexVal_le hb; omega
                · have := hexVal_le hd; have := hexVal_le he; omega
                · have := hexVal_le hf; have := hexVal_le hg; omega
                · exact (Option.some.inj h).symm
  · simp [fromHexCore] at h

/-- Inversion through the optional leading `#`. -/
theorem fromHexList_shape {l : List Char} {c : Rgb} (h : fromHexList l = some c) :
    ∃ nr ng nb : ℕ, nr ≤ 255 ∧ ng ≤ 255 ∧ nb ≤ 255
      ∧ c = ⟨(nr : ℚ), (ng : ℚ), (nb : ℚ)⟩ := by
  unfold fromHexList at h
  split at h
  · exact fromHexCore_shape h
  · exact fromHexCore_shape h

theorem fromHex_shape {s : String} {c : Rgb} (h : fromHex s = some c) :
    ∃ nr ng nb : ℕ, nr ≤ 255 ∧ ng ≤ 255 ∧ nb ≤ 255
      ∧ c = ⟨(nr : ℚ), (ng : ℚ), (nb : ℚ)⟩ :=
  fromHexList_shape h

/-- A parse that produces pure black can only come from a hex spelling of
black: the parser never coerces other input to black. -/
theorem fromHexCore_black : ∀ {l : List Char}, fromHexCore l = some ⟨0, 0, 0⟩ →
    l = ['0', '0', '0'] ∨ l = ['0', '0', '0', '0', '0', '0'] := by
  intro l h
  rcases l with _ | ⟨a, _ | ⟨b, _ | ⟨d, _ | ⟨e, _ | ⟨f, _ | ⟨g', _ | ⟨i, tl⟩⟩⟩⟩⟩⟩⟩
  · simp [fromHexCore] at h
  · simp [fromHexCore] at h
  · simp [fromHexCore] at h
  · cases ha : hexVal a with
    | none => rw [fromHexCore, ha] at h; exact Option.noConfusion h
    | some va =>
      cases hb : hexVal b with
      | none => rw [fromHexCore, ha, hb] at h; exact Option.noConfusion h
      | some vb =>
        cases hd : hexVal d with
        | none => rw [fromHexCore, ha, hb, hd] at h; exact Option.noConfusion h
        | some vd =>
          rw [fromHexCore, ha, hb, hd] at h
          have h' := Option.some.inj h
          rw [Rgb.mk.injEq] at h'
          obtain ⟨e1, e2, e3⟩ := h'
          have hva : va = 0 := by
            have : (17 * va : ℕ) = 0 := by exact_mod_cast e1
            omega
          have hvb : vb = 0 := by
            have : (17 * vb : ℕ) = 0 := by exact_mod_cast e2
            omega
          have hvd : vd = 0 := by
            have : (17 * vd : ℕ) = 0 := by exact_mod_cast e3
            omega
          have ha0 : a = '0' := hexVal_eq_zero (by rw [ha, hva])
          have hb0 : b = '0' := hexVal_eq_zero (by rw [hb, hvb])
          have hd0 : d = '0' := hexVal_eq_zero (by rw [hd, hvd])
          exact Or.inl (by rw [ha0, hb0, hd0])
  · simp [fromHexCore] at h
  · simp [fromHexCore] at h
  · cases ha : hexVal a with
    | none => rw [fromHexCore, ha] at h; exact Option.noConfusion h
    | some va =>
      cases hb : hexVal b with
      | none => rw [fromHexCore, ha, hb] at h; exact Option.noConfusion h
      | some vb =>
        cases hd : hexVal d with
        | none => rw [fromHexCore, ha, hb, hd] at h; exact Option.noConfusion h
        | some vd =>
          cases he : hexVal e with
          | none => rw [fromHexCore, ha, hb, hd, he] at h; exact Option.noConfusion h
          | some ve =>
            cases hf : hexVal f with
            | none => rw [fromHexCore, ha, hb, hd, he, hf] at h; exact Option.noConfusion h
            | some vf =>
              cases hg : hexVal g' with
              | none =>
                rw [fromHexCore, ha, hb, hd, he, hf, hg] at h
                exact Option.noConfusion h
              | some vg =>
                rw [fromHexCore, ha, hb, hd, he, hf, hg] at h
                have h' := Option.some.inj h
                rw [Rgb.mk.injEq] at h'
                obtain ⟨e1, e2, e3⟩ := h'
                have h12 : va = 0 ∧ vb = 0 := by
                  have : (16 * va + vb : ℕ) = 0 := by exact_mod_cast e1
                  omega
                have h34 : vd = 0 ∧ ve = 0 := by
                  have : (16 * vd + ve : ℕ) = 0 := by exact_mod_cast e2
                  omega
                have h56 : vf = 0 ∧ vg = 0 := by
                  have : (16 * vf + vg : ℕ) = 0 := by exact_mod_cast e3
                  omega
                have ha0 : a = '0' := hexVal_eq_zero (by rw [ha, h12.1])
                have hb0 : b = '0' := hexVal_eq_zero (by rw [hb, h12.2])
                have hd0 : d = '0' := hexVal_eq_zero (by rw [hd, h34.1])
                have he0 : e = '0' := hexVal_eq_zero (by rw [he, h34.2])
                have hf0 : f = '0' := hexVal_eq_zero (by rw [hf, h56.1])
                have hg0 : g' = '0' := hexVal_eq_zero (by rw [hg, h56.2])
                exact Or.inr (by rw [ha0, hb0, hd0, he0, hf0, hg0])
  · simp [fromHexCore] at h

/-- String-level version: only the hex spellings of black parse to black. -/
theorem fromHex_black {s : String} (h : fromHex s = some ⟨0, 0, 0⟩) :
    s = "#000000" ∨ s = "000000" ∨ s = "#000" ∨ s = "000" := by
  obtain ⟨data⟩ := s
  have hd : fromHexList data = some ⟨0, 0, 0⟩ := h
  unfold fromHexList at hd
  split_ifs at hd with hh
  · rcases data with _ | ⟨ch, rest⟩
    · simp at hh
    · have hch : ch = '#' := by
        rw [List.head?_cons] at hh
        exact Option.some.inj hh
      subst hch
      rw [List.tail_cons] at hd
      rcases fromHexCore_black hd with h3 | h6
      · subst h3
        exact Or.inr (Or.inr (Or.inl rfl))
      · subst h6
        exact Or.inl rfl
  · rcases fromHexCore_black hd with h3 | h6
    · subst h3
      exact Or.inr (Or.inr (Or.inr rfl))
    · subst h6
      exact Or.inr (Or.inl rfl)

/-! ## Claim-level helper lemmas -/

theorem hueName_agree {k : ℤ} (h0 : 0 ≤ k) (h1 : k ≤ 5) :
    hueNameAt k = ["Red", "Orange", "Yellow", "Green", "Blue", "Purple"].getD k.toNat "" := by
  unfold hueNameAt
  rw [if_pos h0]
  obtain ⟨n, hn⟩ := Int.eq_ofNat_of_zero_le h0
  subst hn
  rw [Int.toNat_natCast]
  have hn5 : n ≤ 5 := by exact_mod_cast h1
  interval_cases n <;> rfl

theorem hslToRgb_wrap (h s l : ℚ) : hslToRgb ⟨wrapHue h, s, l⟩ = hslToRgb ⟨h, s, l⟩ := by
  simp only [hslToRgb, wrapHue_wrapHue]

theorem adjustHsl_zero {r g b : ℚ} (h0r : 0 ≤ r) (h1r : r ≤ 255)
    (h0g : 0 ≤ g) (h1g : g ≤ 255) (h0b : 0 ≤ b) (h1b : b ≤ 255) :
    adjustHsl ⟨0, 0, 0⟩ (toHsl ⟨r, g, b⟩) = toHsl ⟨r, g, b⟩ := by
  obtain ⟨hh0, hh1, hs0, hs1, hl0, hl1⟩ := toHsl_mem h0r h1r h0g h1g h0b h1b
  show (⟨jsRem ((toHsl ⟨r, g, b⟩).h + 0) 360,
    clamp01 ((toHsl ⟨r, g, b⟩).s + 0 / 100),
    clamp01 ((toHsl ⟨r, g, b⟩).l + 0 / 100)⟩ : Hsl) = toHsl ⟨r, g, b⟩
  rw [add_zero, zero_div, add_zero, add_zero]
  rw [jsRem_eq_self hh0 hh1, clamp01_of_mem hs0 hs1, clamp01_of_mem hl0 hl1]

theorem adjustColor_zero {r g b : ℚ} (h0r : 0 ≤ r) (h1r : r ≤ 255)
    (h0g : 0 ≤ g) (h1g : g ≤ 255) (h0b : 0 ≤ b) (h1b : b ≤ 255) :
    adjustColor ⟨0, 0, 0⟩ ⟨r, g, b⟩ = ⟨r, g, b⟩ := by
  unfold adjustColor
  rw [adjustHsl_zero h0r h1r h0g h1g h0b h1b]
  exact hslToRgb_toHsl h0r h1r h0g h1g h0b h1b

/-! ## The claims -/

/-- Claim C3: for every palette entry with hue in `[0,360)` and every
adjustment hue in `[-180,180]`, the hue of the color built by
`applyAdjustment` equals the mathematical modulus `(h + adjustment.hue) mod
360` and lies in `[0,360)`, also when the sum is negative; the constructed
color is the one built from that wrapped hue. -/
theorem c3_hue_wrap (x : Hsl) (a : Adj) (hx0 : 0 ≤ x.h) (hx1 : x.h < 360)
    (ha0 : -180 ≤ a.hue) (ha1 : a.hue ≤ 180) :
    wrapHue ((adjustHsl a x).h)
      = (x.h + a.hue) - 360 * (⌊(x.h + a.hue) / 360⌋ : ℚ)
    ∧ 0 ≤ wrapHue ((adjustHsl a x).h)
    ∧ wrapHue ((adjustHsl a x).h) < 360
    ∧ hslToRgb (adjustHsl a x)
        = hslToRgb ⟨wrapHue ((adjustHsl a x).h), (adjustHsl a x).s, (adjustHsl a x).l⟩ := by
  refine ⟨?_, wrapHue_nonneg _, wrapHue_lt _, ?_⟩
  · show wrapHue (jsRem (x.h + a.hue) 360) = _
    rw [wrapHue_jsRem]
    rfl
  · exact (hslToRgb_wrap (adjustHsl a x).h (adjustHsl a x).s (adjustHsl a x).l).symm

theorem c3_hue_wrap_witness :
    wrapHue ((adjustHsl ⟨-180, 0, 0⟩ ⟨10, 7/10, 1/2⟩).h) = 190 := by
  have h := c3_hue_wrap ⟨10, 7/10, 1/2⟩ ⟨-180, 0, 0⟩
    (by norm_num) (by norm_num) (by norm_num) (by norm_num)
  rw [h.1]
  with_unfolding_all decide

/-- Claim C5: the saturation and lightness produced by `applyAdjustment`
always lie in `[0,1]`; when the un-clamped sum leaves `[0,1]` the stored
value is exactly 0 or exactly 1. -/
theorem c5_clamp_bounds (a : Adj) (x : Hsl) :
    (0 ≤ (adjustHsl a x).s ∧ (adjustHsl a x).s ≤ 1)
    ∧ (0 ≤ (adjustHsl a x).l ∧ (adjustHsl a x).l ≤ 1)
    ∧ (x.s + a.saturation / 100 < 0 → (adjustHsl a x).s = 0)
    ∧ (1 < x.s + a.saturation / 100 → (adjustHsl a x).s = 1)
    ∧ (x.l + a.brightness / 100 < 0 → (adjustHsl a x).l = 0)
    ∧ (1 < x.l + a.brightness / 100 → (adjustHsl a x).l = 1) := by
  have es : (adjustHsl a x).s = clamp01 (x.s + a.saturation / 100) := rfl
  have el : (adjustHsl a x).l = clamp01 (x.l + a.brightness / 100) := rfl
  rw [es, el]
  exact ⟨⟨clamp01_nonneg _, clamp01_le_one _⟩, ⟨clamp01_nonneg _, clamp01_le_one _⟩,
    fun h => clamp01_of_neg h, fun h => clamp01_of_gt_one h,
    fun h => clamp01_of_neg h, fun h => clamp01_of_gt_one h⟩

theorem c5_clamp_bounds_witness :
    (adjustHsl ⟨0, 80, -200⟩ ⟨0, 1/2, 1/2⟩).s = 1
    ∧ (adjustHsl ⟨0, 80, -200⟩ ⟨0, 1/2, 1/2⟩).l = 0 :=
  ⟨(c5_clamp_bounds ⟨0, 80, -200⟩ ⟨0, 1/2, 1/2⟩).2.2.2.1 (by with_unfolding_all decide),
   (c5_clamp_bounds ⟨0, 80, -200⟩ ⟨0, 1/2, 1/2⟩).2.2.2.2.1 (by with_unfolding_all decide)⟩

/-- Claim C7: `generateColorName` is a pure function of the HSL triple
agreeing with the spec's naming rules (saturation word "Vibrant" iff
`s > 0.5`, lightness word "Light"/"Dark"/empty, composed and trimmed), and
the color with `h = 0`, `s = 0.7`, `l = 0.5` is named "Vibrant Red". -/
theorem c7_name_rules (r g b : ℚ) (h0r : 0 ≤ r) (h1r : r ≤ 255)
    (h0g : 0 ≤ g) (h1g : g ≤ 255) (h0b : 0 ≤ b) (h1b : b ≤ 255) :
    generateColorName ⟨r, g, b⟩ = specColorName (toHsl ⟨r, g, b⟩)
    ∧ generateColorName (hslToRgb ⟨0, 7/10, 1/2⟩) = "Vibrant Red" := by
  obtain ⟨hh0, hh1, _, _, _, _⟩ := toHsl_mem h0r h1r h0g h1g h0b h1b
  constructor
  · simp only [generateColorName, specColorName]
    have e1 : hueIndexOf (toHsl ⟨r, g, b⟩).h = ⌊(toHsl ⟨r, g, b⟩).h / 60⌋ := by
      unfold hueIndexOf
      rw [jsRem_eq_self hh0 hh1]
    have e2 : (0:ℤ) ≤ ⌊(toHsl ⟨r, g, b⟩).h / 60⌋ := Int.floor_nonneg.mpr (by positivity)
    have e3 : ⌊(toHsl ⟨r, g, b⟩).h / 60⌋ ≤ 5 := by
      have hx : (toHsl ⟨r, g, b⟩).h / 60 < ((6:ℤ):ℚ) := by
        push_cast
        rw [div_lt_iff (by norm_num : (0:ℚ) < 60)]
        linarith
      have := Int.floor_lt.mpr hx
      omega
    rw [e1, hueName_agree e2 e3]
  · with_unfolding_all decide

theorem c7_name_rules_witness :
    generateColorName ⟨255, 0, 0⟩ = specColorName (toHsl ⟨255, 0, 0⟩)
    ∧ generateColorName (hslToRgb ⟨0, 7/10, 1/2⟩) = "Vibrant Red" :=
  c7_name_rules 255 0 0 (by norm_num) (by norm_num) (by norm_num)
    (by norm_num) (by norm_num) (by norm_num)

/-- Claim C8: for hue in `[0,360)`, the sector index of `generateColorName`
is one of 0–5, the list access is in bounds, and the hue word is always one
of the six reachable labels — never "Pink". -/
theorem c8_hue_sector_safe (h : ℚ) (h0 : 0 ≤ h) (h1 : h < 360) :
    0 ≤ hueIndexOf h ∧ hueIndexOf h ≤ 5
    ∧ (hueIndexOf h).toNat < hueNames.length
    ∧ hueNameAt (hueIndexOf h) ∈ ["Red", "Orange", "Yellow", "Green", "Blue", "Purple"]
    ∧ hueNameAt (hueIndexOf h) ≠ "Pink" := by
  have e1 : hueIndexOf h = ⌊h / 60⌋ := by
    unfold hueIndexOf
    rw [jsRem_eq_self h0 h1]
  have e2 : (0:ℤ) ≤ ⌊h / 60⌋ := Int.floor_nonneg.mpr (by positivity)
  have e3 : ⌊h / 60⌋ ≤ 5 := by
    have hx : h / 60 < ((6:ℤ):ℚ) := by
      push_cast
      rw [div_lt_iff (by norm_num : (0:ℚ) < 60)]
      linarith
    have := Int.floor_lt.mpr hx
    omega
  rw [e1]
  refine ⟨e2, e3, by simp [hueNames]; omega, ?_, ?_⟩
  · obtain ⟨n, hn⟩ := Int.eq_ofNat_of_zero_le e2
    rw [hn]
    have hn5 : n ≤ 5 := by omega
    interval_cases n <;> decide
  · obtain ⟨n, hn⟩ := Int.eq_ofNat_of_zero_le e2
    rw [hn]
    have hn5 : n ≤ 5 := by omega
    interval_cases n <;> decide

theorem c8_hue_sector_safe_witness :
    0 ≤ hueIndexOf 350 ∧ hueIndexOf 350 ≤ 5
    ∧ (hueIndexOf 350).toNat < hueNames.length
    ∧ hueNameAt (hueIndexOf 350) ∈ ["Red", "Orange", "Yellow", "Green", "Blue", "Purple"]
    ∧ hueNameAt (hueIndexOf 350) ≠ "Pink" :=
  c8_hue_sector_safe 350 (by norm_num) (by norm_num)

set_option maxRecDepth 16000 in
/-- Claim C2: `applyAdjustment` rebuilds HSL from each entry's current
stored hex, so repeated application compounds: applying the hue-30
adjustment twice to the pure-red palette gives a different palette than
applying it once. -/
theorem c2_cumulative :
    adjustPalette ⟨30, 0, 0⟩ (adjustPalette ⟨30, 0, 0⟩ [⟨255, 0, 0⟩])
      ≠ adjustPalette ⟨30, 0, 0⟩ [⟨255, 0, 0⟩]
    ∧ adjustPalette ⟨30, 0, 0⟩ [⟨255, 0, 0⟩] = [⟨255, 128, 0⟩]
    ∧ adjustPalette ⟨30, 0, 0⟩ [⟨255, 128, 0⟩] = [⟨255, 255, 0⟩] := by
  refine ⟨?_, ?_, ?_⟩ <;> with_unfolding_all decide

/-- Claim C6: applying the zero adjustment vector to any palette of stored
colors is a no-op: every entry's color — hence its hex and every derived
string and the name — is unchanged. -/
theorem c6_zero_noop (p : List Rgb)
    (hp : ∀ c ∈ p, (((jsRound c.r : ℤ) : ℚ) = c.r ∧ 0 ≤ c.r ∧ c.r ≤ 255)
      ∧ (((jsRound c.g : ℤ) : ℚ) = c.g ∧ 0 ≤ c.g ∧ c.g ≤ 255)
      ∧ (((jsRound c.b : ℤ) : ℚ) = c.b ∧ 0 ≤ c.b ∧ c.b ≤ 255)) :
    adjustPalette ⟨0, 0, 0⟩ p = p
    ∧ (adjustPalette ⟨0, 0, 0⟩ p).map mkColorData = p.map mkColorData := by
  have key : ∀ c ∈ p, storeColor (adjustColor ⟨0, 0, 0⟩ c) = c := by
    intro c hc
    obtain ⟨r, g, b⟩ := c
    obtain ⟨⟨er, hr0, hr1⟩, ⟨eg, hg0, hg1⟩, ⟨eb, hb0, hb1⟩⟩ := hp _ hc
    rw [adjustColor_zero hr0 hr1 hg0 hg1 hb0 hb1]
    unfold storeColor
    simp only [Rgb.mk.injEq]
    exact ⟨er, eg, eb⟩
  have h1 : adjustPalette ⟨0, 0, 0⟩ p = p := by
    unfold adjustPalette
    rw [List.map_congr_left key, List.map_id']
  exact ⟨h1, by rw [h1]⟩

theorem c6_zero_noop_witness :
    adjustPalette ⟨0, 0, 0⟩ [(⟨255, 128, 0⟩ : Rgb), ⟨1, 2, 3⟩] = [⟨255, 128, 0⟩, ⟨1, 2, 3⟩]
    ∧ (adjustPalette ⟨0, 0, 0⟩ [(⟨255, 128, 0⟩ : Rgb), ⟨1, 2, 3⟩]).map mkColorData
        = [(⟨255, 128, 0⟩ : Rgb), ⟨1, 2, 3⟩].map mkColorData :=
  c6_zero_noop [⟨255, 128, 0⟩, ⟨1, 2, 3⟩] (by with_unfolding_all decide)

/-- Counterexample to claim C1 as stated: on the mid-gray base `#808080`
the code's shade ramp is `["#4d4d4d", "#676767", "#808080", "#9a9a9a",
"#b3b3b3"]` (lightness offsets −20, −10, 0, +10, +20 on the 0–100 scale).
The claimed −40 offset would instead give first shade `"#1a1a1a"`, and the
claimed ramp `["#1a1a1a", "#4d4d4d", "#808080", "#b3b3b3", "#e6e6e6"]` is
not what `getShades` produces. -/
theorem c1_shade_offsets_cex :
    getShadesOfHex "#808080"
      = some ["#4d4d4d", "#676767", "#808080", "#9a9a9a", "#b3b3b3"]
    ∧ toHexString (hslToRgb ⟨(toHsl ⟨128, 128, 128⟩).h, (toHsl ⟨128, 128, 128⟩).s,
        clamp01 ((toHsl ⟨128, 128, 128⟩).l + -40 / 100)⟩) = "#1a1a1a"
    ∧ getShadesOfHex "#808080"
      ≠ some ["#1a1a1a", "#4d4d4d", "#808080", "#b3b3b3", "#e6e6e6"] := by
  refine ⟨?_, ?_, ?_⟩ <;> with_unfolding_all decide

set_option maxHeartbeats 800000 in
/-- Claim C1 (amended): for `steps = 5`, `getShades` lightens the base color
by exactly `[-20, -10, 0, +10, +20]` on the 0–100 lightness scale (clamped
at the extremes), and the middle shade is the base color's own hex — its
lightness is unchanged. -/
theorem c1_shade_offsets (r g b : ℕ) (h1 : r ≤ 255) (h2 : g ≤ 255) (h3 : b ≤ 255) :
    getShades ⟨(r : ℚ), (g : ℚ), (b : ℚ)⟩
      = [toHexString (hslToRgb ⟨(toHsl ⟨(r : ℚ), (g : ℚ), (b : ℚ)⟩).h,
            (toHsl ⟨(r : ℚ), (g : ℚ), (b : ℚ)⟩).s,
            clamp01 ((toHsl ⟨(r : ℚ), (g : ℚ), (b : ℚ)⟩).l + -20 / 100)⟩),
         toHexString (hslToRgb ⟨(toHsl ⟨(r : ℚ), (g : ℚ), (b : ℚ)⟩).h,
            (toHsl ⟨(r : ℚ), (g : ℚ), (b : ℚ)⟩).s,
            clamp01 ((toHsl ⟨(r : ℚ), (g : ℚ), (b : ℚ)⟩).l + -10 / 100)⟩),
         toHexString (hslToRgb ⟨(toHsl ⟨(r : ℚ), (g : ℚ), (b : ℚ)⟩).h,
            (toHsl ⟨(r : ℚ), (g : ℚ), (b : ℚ)⟩).s,
            clamp01 ((toHsl ⟨(r : ℚ), (g : ℚ), (b : ℚ)⟩).l + 0 / 100)⟩),
         toHexString (hslToRgb ⟨(toHsl ⟨(r : ℚ), (g : ℚ), (b : ℚ)⟩).h,
            (toHsl ⟨(r : ℚ), (g : ℚ), (b : ℚ)⟩).s,
            clamp01 ((toHsl ⟨(r : ℚ), (g : ℚ), (b : ℚ)⟩).l + 10 / 100)⟩),
         toHexString (hslToRgb ⟨(toHsl ⟨(r : ℚ), (g : ℚ), (b : ℚ)⟩).h,
            (toHsl ⟨(r : ℚ), (g : ℚ), (b : ℚ)⟩).s,
            clamp01 ((toHsl ⟨(r : ℚ), (g : ℚ), (b : ℚ)⟩).l + 20 / 100)⟩)]
    ∧ (getShades ⟨(r : ℚ), (g : ℚ), (b : ℚ)⟩)[2]?
        = some (toHexString ⟨(r : ℚ), (g : ℚ), (b : ℚ)⟩) := by
  have hr0 : (0:ℚ) ≤ (r : ℚ) := Nat.cast_nonneg r
  have hg0 : (0:ℚ) ≤ (g : ℚ) := Nat.cast_nonneg g
  have hb0 : (0:ℚ) ≤ (b : ℚ) := Nat.cast_nonneg b
  have hr1 : (r : ℚ) ≤ 255 := by exact_mod_cast h1
  have hg1 : (g : ℚ) ≤ 255 := by exact_mod_cast h2
  have hb1 : (b : ℚ) ≤ 255 := by exact_mod_cast h3
  obtain ⟨hh0, hh1, hs0, hs1, hl0, hl1⟩ := toHsl_mem hr0 hr1 hg0 hg1 hb0 hb1
  have e0 : (((0:ℕ):ℚ) - 2) * (2 / 10) * 50 = -20 := by norm_num
  have e1 : (((1:ℕ):ℚ) - 2) * (2 / 10) * 50 = -10 := by norm_num
  have e2 : (((2:ℕ):ℚ) - 2) * (2 / 10) * 50 = 0 := by norm_num
  have e3 : (((3:ℕ):ℚ) - 2) * (2 / 10) * 50 = 10 := by norm_num
  have e4 : (((4:ℕ):ℚ) - 2) * (2 / 10) * 50 = 20 := by norm_num
  constructor
  · unfold getShades
    rw [show List.range 5 = [0, 1, 2, 3, 4] from rfl]
    simp only [List.map_cons, List.map_nil]
    rw [e0, e1, e2, e3, e4]
    rfl
  · have hm : lighten 0 (⟨(r : ℚ), (g : ℚ), (b : ℚ)⟩ : Rgb) = ⟨(r : ℚ), (g : ℚ), (b : ℚ)⟩ := by
      simp only [lighten]
      rw [zero_div, add_zero, clamp01_of_mem hl0 hl1]
      exact hslToRgb_toHsl hr0 hr1 hg0 hg1 hb0 hb1
    show some (toHexString (lighten ((((2:ℕ):ℚ) - 2) * (2 / 10) * 50)
        ⟨(r : ℚ), (g : ℚ), (b : ℚ)⟩))
      = some (toHexString ⟨(r : ℚ), (g : ℚ), (b : ℚ)⟩)
    rw [e2, hm]

theorem c1_shade_offsets_witness :
    getShades ⟨((128:ℕ) : ℚ), ((128:ℕ) : ℚ), ((128:ℕ) : ℚ)⟩
      = [toHexString (hslToRgb ⟨(toHsl ⟨((128:ℕ) : ℚ), ((128:ℕ) : ℚ), ((128:ℕ) : ℚ)⟩).h,
            (toHsl ⟨((128:ℕ) : ℚ), ((128:ℕ) : ℚ), ((128:ℕ) : ℚ)⟩).s,
            clamp01 ((toHsl ⟨((128:ℕ) : ℚ), ((128:ℕ) : ℚ), ((128:ℕ) : ℚ)⟩).l + -20 / 100)⟩),
         toHexString (hslToRgb ⟨(toHsl ⟨((128:ℕ) : ℚ), ((128:ℕ) : ℚ), ((128:ℕ) : ℚ)⟩).h,
            (toHsl ⟨((128:ℕ) : ℚ), ((128:ℕ) : ℚ), ((128:ℕ) : ℚ)⟩).s,
            clamp01 ((toHsl ⟨((128:ℕ) : ℚ), ((128:ℕ) : ℚ), ((128:ℕ) : ℚ)⟩).l + -10 / 100)⟩),
         toHexString (hslToRgb ⟨(toHsl ⟨((128:ℕ) : ℚ), ((128:ℕ) : ℚ), ((128:ℕ) : ℚ)⟩).h,
            (toHsl ⟨((128:ℕ) : ℚ), ((128:ℕ) : ℚ), ((128:ℕ) : ℚ)⟩).s,
            clamp01 ((toHsl ⟨((128:ℕ) : ℚ), ((128:ℕ) : ℚ), ((128:ℕ) : ℚ)⟩).l + 0 / 100)⟩),
         toHexString (hslToRgb ⟨(toHsl ⟨((128:ℕ) : ℚ), ((128:ℕ) : ℚ), ((128:ℕ) : ℚ)⟩).h,
            (toHsl ⟨((128:ℕ) : ℚ), ((128:ℕ) : ℚ), ((128:ℕ) : ℚ)⟩).s,
            clamp01 ((toHsl ⟨((128:ℕ) : ℚ), ((128:ℕ) : ℚ), ((128:ℕ) : ℚ)⟩).l + 10 / 100)⟩),
         toHexString (hslToRgb ⟨(toHsl ⟨((128:ℕ) : ℚ), ((128:ℕ) : ℚ), ((128:ℕ) : ℚ)⟩).h,
            (toHsl ⟨((128:ℕ) : ℚ), ((128:ℕ) : ℚ), ((128:ℕ) : ℚ)⟩).s,
            clamp01 ((toHsl ⟨((128:ℕ) : ℚ), ((128:ℕ) : ℚ), ((128:ℕ) : ℚ)⟩).l + 20 / 100)⟩)]
    ∧ (getShades ⟨((128:ℕ) : ℚ), ((128:ℕ) : ℚ), ((128:ℕ) : ℚ)⟩)[2]?
        = some (toHexString ⟨((128:ℕ) : ℚ), ((128:ℕ) : ℚ), ((128:ℕ) : ℚ)⟩) :=
  c1_shade_offsets 128 128 128 (by norm_num) (by norm_num) (by norm_num)

/-- Claim C4: constructing a color from an unparseable string fails (the
`InvalidColorFormat` outcome of the spec-modelled parser) — the input is
never silently coerced to black: the only strings that parse to black are
the hex spellings of black, and concrete malformed inputs parse to
nothing. -/
theorem c4_invalid_rejected :
    (∀ s : String, fromHex s = some ⟨0, 0, 0⟩ →
        s = "#000000" ∨ s = "000000" ∨ s = "#000" ∨ s = "000")
    ∧ fromHex "#12345" = none
    ∧ fromHex "notacolor" = none
    ∧ fromHex "#gg0000" = none := by
  refine ⟨fun s h => fromHex_black h, ?_, ?_, ?_⟩ <;> with_unfolding_all decide

theorem c4_invalid_rejected_witness :
    "#000" = "#000000" ∨ "#000" = "000000" ∨ "#000" = "#000" ∨ "#000" = "000" :=
  c4_invalid_rejected.1 "#000" (by with_unfolding_all decide)

/-- Claim C9: the initial palette built from a random base hue `h0` in
`[0,360)` consists of five entries whose colors are the base color
(saturation 0.7, lightness 0.5) hue-rotated by exactly 0°, 30°, 60°, 90°,
120° (fixed 30° steps, spanning 120°), each stored with name and all four
derived strings computed from that color; every slot color's HSL is its
rotated hue (wrapped into `[0,360)`) with saturation and lightness
unchanged. -/
theorem c9_initial_palette (h0 : ℚ) (hh0 : 0 ≤ h0) (hh1 : h0 < 360) :
    initialPalette h0
      = [mkColorData (hslToRgb ⟨wrapHue (h0 + 0 * 30), 7/10, 1/2⟩),
         mkColorData (hslToRgb ⟨wrapHue (h0 + 1 * 30), 7/10, 1/2⟩),
         mkColorData (hslToRgb ⟨wrapHue (h0 + 2 * 30), 7/10, 1/2⟩),
         mkColorData (hslToRgb ⟨wrapHue (h0 + 3 * 30), 7/10, 1/2⟩),
         mkColorData (hslToRgb ⟨wrapHue (h0 + 4 * 30), 7/10, 1/2⟩)]
    ∧ toHsl (hslToRgb ⟨h0, 7/10, 1/2⟩) = ⟨h0, 7/10, 1/2⟩
    ∧ toHsl (hslToRgb ⟨wrapHue (h0 + 0 * 30), 7/10, 1/2⟩)
        = ⟨wrapHue (h0 + 0 * 30), 7/10, 1/2⟩
    ∧ toHsl (hslToRgb ⟨wrapHue (h0 + 1 * 30), 7/10, 1/2⟩)
        = ⟨wrapHue (h0 + 1 * 30), 7/10, 1/2⟩
    ∧ toHsl (hslToRgb ⟨wrapHue (h0 + 2 * 30), 7/10, 1/2⟩)
        = ⟨wrapHue (h0 + 2 * 30), 7/10, 1/2⟩
    ∧ toHsl (hslToRgb ⟨wrapHue (h0 + 3 * 30), 7/10, 1/2⟩)
        = ⟨wrapHue (h0 + 3 * 30), 7/10, 1/2⟩
    ∧ toHsl (hslToRgb ⟨wrapHue (h0 + 4 * 30), 7/10, 1/2⟩)
        = ⟨wrapHue (h0 + 4 * 30), 7/10, 1/2⟩ := by
  have hbase : toHsl (hslToRgb ⟨h0, 7/10, 1/2⟩) = ⟨h0, 7/10, 1/2⟩ :=
    toHsl_hslToRgb hh0 hh1 (by norm_num) (by norm_num) (by norm_num) (by norm_num)
  have hslot : ∀ amt : ℚ, toHsl (hslToRgb ⟨wrapHue (h0 + amt), 7/10, 1/2⟩)
      = ⟨wrapHue (h0 + amt), 7/10, 1/2⟩ := fun amt =>
    toHsl_hslToRgb (wrapHue_nonneg _) (wrapHue_lt _)
      (by norm_num) (by norm_num) (by norm_num) (by norm_num)
  have hspin : ∀ amt : ℚ, spin amt (hslToRgb ⟨h0, 7/10, 1/2⟩)
      = hslToRgb ⟨wrapHue (h0 + amt), 7/10, 1/2⟩ := by
    intro amt
    simp only [spin]
    rw [hbase]
  refine ⟨?_, hbase, hslot _, hslot _, hslot _, hslot _, hslot _⟩
  unfold initialPalette
  rw [show List.range 5 = [0, 1, 2, 3, 4] from rfl]
  simp only [List.map_cons, List.map_nil, hspin]
  norm_num

theorem c9_initial_palette_witness :
    initialPalette 10
      = [mkColorData (hslToRgb ⟨wrapHue (10 + 0 * 30), 7/10, 1/2⟩),
         mkColorData (hslToRgb ⟨wrapHue (10 + 1 * 30), 7/10, 1/2⟩),
         mkColorData (hslToRgb ⟨wrapHue (10 + 2 * 30), 7/10, 1/2⟩),
         mkColorData (hslToRgb ⟨wrapHue (10 + 3 * 30), 7/10, 1/2⟩),
         mkColorData (hslToRgb ⟨wrapHue (10 + 4 * 30), 7/10, 1/2⟩)]
    ∧ toHsl (hslToRgb ⟨10, 7/10, 1/2⟩) = ⟨10, 7/10, 1/2⟩
    ∧ toHsl (hslToRgb ⟨wrapHue (10 + 0 * 30), 7/10, 1/2⟩)
        = ⟨wrapHue (10 + 0 * 30), 7/10, 1/2⟩
    ∧ toHsl (hslToRgb ⟨wrapHue (10 + 1 * 30), 7/10, 1/2⟩)
        = ⟨wrapHue (10 + 1 * 30), 7/10, 1/2⟩
    ∧ toHsl (hslToRgb ⟨wrapHue (10 + 2 * 30), 7/10, 1/2⟩)
        = ⟨wrapHue (10 + 2 * 30), 7/10, 1/2⟩
    ∧ toHsl (hslToRgb ⟨wrapHue (10 + 3 * 30), 7/10, 1/2⟩)
        = ⟨wrapHue (10 + 3 * 30), 7/10, 1/2⟩
    ∧ toHsl (hslToRgb ⟨wrapHue (10 + 4 * 30), 7/10, 1/2⟩)
        = ⟨wrapHue (10 + 4 * 30), 7/10, 1/2⟩ :=
  c9_initial_palette 10 (by norm_num) (by norm_num)

/-- Claim C10: for every valid hex string the parse/format round trip is
exact (`fromHex (toHexString (fromHex s)) = fromHex s`), and converting an
RGB color to HSL and back recovers every channel within ±1 — in the exact
rational model it recovers them exactly. -/
theorem c10_roundtrip :
    (∀ (s : String) (c : Rgb), fromHex s = some c → fromHex (toHexString c) = some c)
    ∧ (∀ r g b : ℕ, r ≤ 255 → g ≤ 255 → b ≤ 255 →
        hslToRgb (toHsl ⟨(r : ℚ), (g : ℚ), (b : ℚ)⟩) = ⟨(r : ℚ), (g : ℚ), (b : ℚ)⟩
        ∧ |(hslToRgb (toHsl ⟨(r : ℚ), (g : ℚ), (b : ℚ)⟩)).r - (r : ℚ)| ≤ 1
        ∧ |(hslToRgb (toHsl ⟨(r : ℚ), (g : ℚ), (b : ℚ)⟩)).g - (g : ℚ)| ≤ 1
        ∧ |(hslToRgb (toHsl ⟨(r : ℚ), (g : ℚ), (b : ℚ)⟩)).b - (b : ℚ)| ≤ 1) := by
  constructor
  · intro s c h
    obtain ⟨nr, ng, nb, h1, h2, h3, rfl⟩ := fromHex_shape h
    have hst : fromHex (toHexString ⟨(nr : ℚ), (ng : ℚ), (nb : ℚ)⟩)
        = some (storeColor ⟨(nr : ℚ), (ng : ℚ), (nb : ℚ)⟩) :=
      fromHex_toHexString (by positivity) (by show (nr : ℚ) ≤ 255; exact_mod_cast h1)
        (by positivity) (by show (ng : ℚ) ≤ 255; exact_mod_cast h2)
        (by positivity) (by show (nb : ℚ) ≤ 255; exact_mod_cast h3)
    rw [hst]
    have hsc : storeColor ⟨(nr : ℚ), (ng : ℚ), (nb : ℚ)⟩ = ⟨(nr : ℚ), (ng : ℚ), (nb : ℚ)⟩ := by
      unfold storeColor
      simp only [Rgb.mk.injEq]
      refine ⟨?_, ?_, ?_⟩ <;> rw [jsRound_natCast] <;> exact_mod_cast rfl
    rw [hsc]
  · intro r g b h1 h2 h3
    have hrt := hslToRgb_toHsl (Nat.cast_nonneg r) (by exact_mod_cast h1)
      (Nat.cast_nonneg g) (by exact_mod_cast h2) (Nat.cast_nonneg b) (by exact_mod_cast h3)
    refine ⟨hrt, ?_, ?_, ?_⟩ <;> rw [hrt] <;> simp

theorem c10_roundtrip_witness :
    fromHex (toHexString ⟨26, 43, 60⟩) = some ⟨26, 43, 60⟩
    ∧ hslToRgb (toHsl ⟨((26:ℕ) : ℚ), ((43:ℕ) : ℚ), ((60:ℕ) : ℚ)⟩)
        = ⟨((26:ℕ) : ℚ), ((43:ℕ) : ℚ), ((60:ℕ) : ℚ)⟩ :=
  ⟨c10_roundtrip.1 "#1a2b3c" ⟨26, 43, 60⟩ (by with_unfolding_all decide),
   (c10_roundtrip.2 26 43 60 (by norm_num) (by norm_num) (by norm_num)).1⟩
